import Mathlib

/-!
Verification of the ShopNG e-commerce core services against their
natural-language specification.

The development shallowly embeds the order, auction and review engines of the
repository: the Angular in-memory services `auction.service.ts`,
`order.service.ts` and the review service, and the Express handlers for
`POST /api/orders` and `PUT /api/orders/:id/status`.  Currency amounts and
tax rates are exact rationals; timestamps are rational offsets (hours) from
the moment the services are constructed; JavaScript `Math.round` is the
floor of x + 1/2.  Stateful service code is embedded as explicit state
passing: every mutating method is a function from the service state (plus a
current time where the source consults the clock) to a new state together
with the returned value or thrown error.
-/

/-- JavaScript Math.round: the floor of x + 1/2 (halves round up). -/
def jsRound (q : ℚ) : ℤ := ⌊q + 1/2⌋

/-- Source helper round2: round to 2 decimal places, Math.round(n * 100) / 100. -/
def round2 (q : ℚ) : ℚ := (jsRound (q * 100) : ℚ) / 100

theorem jsRound_mono {q r : ℚ} (h : q ≤ r) : jsRound q ≤ jsRound r :=
  Int.floor_le_floor (by linarith)

theorem round2_mono {q r : ℚ} (h : q ≤ r) : round2 q ≤ round2 r := by
  unfold round2
  have h1 := jsRound_mono (show q * 100 ≤ r * 100 by linarith)
  have h2 : ((jsRound (q * 100) : ℚ)) ≤ (jsRound (r * 100) : ℚ) := by exact_mod_cast h1
  linarith

/-- Rounding to 2 decimals moves the value by less than half a cent downward. -/
theorem round2_gt (q : ℚ) : q - 1/200 < round2 q := by
  unfold round2 jsRound
  have h1 := Int.sub_one_lt_floor (q * 100 + 1/2)
  have h2 : (q * 100 + 1/2) - 1 < (⌊q * 100 + 1/2⌋ : ℚ) := by exact_mod_cast h1
  linarith

/-- Integer numbers of cents are fixed by round2. -/
theorem round2_intCents (n : ℤ) : round2 ((n : ℚ) / 100) = (n : ℚ) / 100 := by
  unfold round2 jsRound
  have h1 : ((n : ℚ) / 100) * 100 = (n : ℚ) := by ring
  rw [h1]
  have h3 : ⌊(n : ℚ) + 1/2⌋ = n := by
    rw [Int.floor_eq_iff]
    constructor
    · linarith
    · linarith
  rw [h3]

/-- Rounding twice changes nothing: round2 output is already at 2 decimals. -/
theorem round2_idem (q : ℚ) : round2 (round2 q) = round2 q := by
  unfold round2 jsRound
  have h1 : ((⌊q * 100 + 1/2⌋ : ℚ)) / 100 * 100 = ((⌊q * 100 + 1/2⌋ : ℚ)) := by ring
  rw [h1]
  have h3 : ⌊(⌊q * 100 + 1/2⌋ : ℚ) + 1/2⌋ = ⌊q * 100 + 1/2⌋ := by
    rw [Int.floor_eq_iff]
    constructor
    · linarith
    · linarith
  rw [h3]

/-- A value fixed by round2 is an integer number of cents. -/
theorem round2_fixed_cents {q : ℚ} (h : round2 q = q) : ∃ n : ℤ, q = (n : ℚ) / 100 := by
  refine ⟨jsRound (q * 100), ?_⟩
  calc q = round2 q := h.symm
    _ = (jsRound (q * 100) : ℚ) / 100 := rfl

/-- Adding one whole unit preserves being fixed by round2. -/
theorem round2_fixed_add_one {q : ℚ} (h : round2 q = q) : round2 (q + 1) = q + 1 := by
  obtain ⟨n, hn⟩ := round2_fixed_cents h
  have h1 : q + 1 = ((n + 100 : ℤ) : ℚ) / 100 := by rw [hn]; push_cast; ring
  rw [h1, round2_intCents]

/-- Summing a mapped list via a foldl with accumulator, as JS reduce does. -/
theorem foldl_add_map {α : Type} (f : α → ℚ) :
    ∀ (l : List α) (init : ℚ), l.foldl (fun s x => s + f x) init = init + (l.map f).sum := by
  intro l
  induction l with
  | nil => intro init; simp
  | cons x xs ih =>
    intro init
    simp only [List.foldl_cons, List.map_cons, List.sum_cons]
    rw [ih]
    ring

/-- Update the first element satisfying p, as JS find-then-mutate does. -/
def updateFirst {α : Type} (p : α → Bool) (f : α → α) : List α → List α
  | [] => []
  | x :: xs => if p x then f x :: xs else x :: updateFirst p f xs

theorem updateFirst_decomp {α : Type} (p : α → Bool) (f : α → α) :
    ∀ (l : List α) (a : α), l.find? p = some a →
      ∃ l1 l2, l = l1 ++ a :: l2 ∧ (∀ x ∈ l1, p x = false) ∧
        updateFirst p f l = l1 ++ f a :: l2 := by
  intro l
  induction l with
  | nil => intro a h; simp [List.find?] at h
  | cons x xs ih =>
    intro a h
    by_cases hx : p x
    · simp only [List.find?, hx] at h
      simp at h
      subst h
      refine ⟨[], xs, by simp, ?_, ?_⟩
      · intro y hy; simp at hy
      · simp [updateFirst, hx]
    · have hx' : p x = false := by simpa using hx
      have h2 : xs.find? p = some a := by
        simp only [List.find?, hx'] at h
        exact h
      obtain ⟨l1, l2, hl, hp, hu⟩ := ih a h2
      refine ⟨x :: l1, l2, by simp [hl], ?_, ?_⟩
      · intro y hy
        rcases List.mem_cons.mp hy with rfl | hy2
        · exact hx'
        · exact hp y hy2
      · simp [updateFirst, hx', hu]

theorem updateFirst_length {α : Type} (p : α → Bool) (f : α → α) :
    ∀ l : List α, (updateFirst p f l).length = l.length := by
  intro l
  induction l with
  | nil => rfl
  | cons x xs ih =>
    by_cases hx : p x
    · simp [updateFirst, hx]
    · simp [updateFirst, hx, ih]

theorem updateFirst_map {α β : Type} (p : α → Bool) (f : α → α) (g : α → β)
    (hg : ∀ x, g (f x) = g x) :
    ∀ l : List α, (updateFirst p f l).map g = l.map g := by
  intro l
  induction l with
  | nil => rfl
  | cons x xs ih =>
    by_cases hx : p x
    · simp [updateFirst, hx, hg]
    · simp [updateFirst, hx, ih]

theorem forall₂_updateFirst {α : Type} (R : α → α → Prop) (p : α → Bool) (f : α → α)
    (hrefl : ∀ x, R x x) :
    ∀ l : List α, (∀ x ∈ l, p x = true → R x (f x)) →
      List.Forall₂ R l (updateFirst p f l) := by
  intro l
  induction l with
  | nil => intro _; exact List.Forall₂.nil
  | cons x xs ih =>
    intro hf
    by_cases hx : p x
    · simp only [updateFirst, hx, if_true]
      exact List.Forall₂.cons (hf x (List.mem_cons_self x xs) hx)
        (List.forall₂_same.mpr (fun y _ => hrefl y))
    · simp only [updateFirst, hx, if_false]
      exact List.Forall₂.cons (hrefl x)
        (ih (fun y hy hpy => hf y (List.mem_cons_of_mem x hy) hpy))

theorem mem_updateFirst {α : Type} (p : α → Bool) (f : α → α) :
    ∀ (l : List α) (y : α), y ∈ updateFirst p f l → y ∈ l ∨ ∃ x ∈ l, y = f x := by
  intro l
  induction l with
  | nil => intro y hy; simp [updateFirst] at hy
  | cons x xs ih =>
    intro y hy
    by_cases hx : p x
    · simp only [updateFirst, hx, if_true] at hy
      rcases List.mem_cons.mp hy with rfl | hy2
      · exact Or.inr ⟨x, List.mem_cons_self x xs, rfl⟩
      · exact Or.inl (List.mem_cons_of_mem x hy2)
    · simp only [updateFirst, hx, if_false] at hy
      rcases List.mem_cons.mp hy with rfl | hy2
      · exact Or.inl (List.mem_cons_self y xs)
      · rcases ih y hy2 with h | ⟨z, hz, hyz⟩
        · exact Or.inl (List.mem_cons_of_mem x h)
        · exact Or.inr ⟨z, List.mem_cons_of_mem x hz, hyz⟩

theorem forall₂_map_self {α : Type} (R : α → α → Prop) (g : α → α)
    (hg : ∀ x, R x (g x)) : ∀ l : List α, List.Forall₂ R l (l.map g) := by
  intro l
  induction l with
  | nil => exact List.Forall₂.nil
  | cons x xs ih => exact List.Forall₂.cons (hg x) ih

theorem forall₂_trans_of {α : Type} {R : α → α → Prop}
    (htrans : ∀ x y z, R x y → R y z → R x z) :
    ∀ {l1 l2 l3 : List α}, List.Forall₂ R l1 l2 → List.Forall₂ R l2 l3 →
      List.Forall₂ R l1 l3 := by
  intro l1
  induction l1 with
  | nil =>
    intro l2 l3 h12 h23
    cases h12
    cases h23
    exact List.Forall₂.nil
  | cons x xs ih =>
    intro l2 l3 h12 h23
    cases h12 with
    | cons hxy h12' =>
      cases h23 with
      | cons hyz h23' =>
        exact List.Forall₂.cons (htrans _ _ _ hxy hyz) (ih h12' h23')

/-! ## Auction engine (src/app/services/auction.service.ts) -/

/-- Auction lifecycle status. -/
inductive AuctionStatus where
  | active
  | ended
  | sold
  | cancelled
deriving DecidableEq, Repr

/-- A bid row of the append-only ledger (display-only name fields elided). -/
structure Bid where
  id : ℕ
  auctionId : ℕ
  bidderId : ℕ
  amount : ℚ
  createdAt : ℚ
deriving DecidableEq, Repr

/-- An auction row (display-only text fields elided). -/
structure Auction where
  id : ℕ
  sellerId : ℕ
  startingPrice : ℚ
  currentPrice : ℚ
  bidCount : ℕ
  status : AuctionStatus
  createdAt : ℚ
  endsAt : ℚ
  winnerId : Option ℕ
deriving DecidableEq, Repr

/-- The private mutable fields of AuctionService. -/
structure AuctionState where
  auctions : List Auction
  bids : List Bid
  nextAuctionId : ℕ
  nextBidId : ℕ
deriving DecidableEq, Repr

/-- Errors thrown by AuctionService methods, one per distinct message. -/
inductive AuctionErr where
  | auctionNotFound
  | noLongerActive
  | auctionEnded
  | ownAuction
  | bidTooLow
  | notYourAuction
  | onlyActiveCanBeCancelled
deriving DecidableEq, Repr

/-- All bids of one auction, in ledger order. -/
def auctionBids (bids : List Bid) (auctionId : ℕ) : List Bid :=
  bids.filter (fun b => b.auctionId == auctionId)

/-- Head of the bids of an auction sorted by amount descending (stable sort:
the earliest bid among those of maximal amount). -/
def topBid (bids : List Bid) (auctionId : ℕ) : Option Bid :=
  (auctionBids bids auctionId).foldl
    (fun acc b =>
      match acc with
      | none => some b
      | some t => if b.amount > t.amount then some b else some t)
    none

/-- One auction passing through checkAndEndAuctions at time now: an active
auction past its deadline becomes sold (winner := top bidder) when it has
bids, or ended when it has none; all other auctions are untouched.  When the
stored bidCount is positive but the ledger holds no bid for the auction the
source would crash reading the top bid; that unreachable branch leaves the
auction unchanged here. -/
def expireAuction (now : ℚ) (bids : List Bid) (a : Auction) : Auction :=
  if a.status = .active ∧ a.endsAt ≤ now then
    if a.bidCount > 0 then
      match topBid bids a.id with
      | some t => { a with status := .sold, winnerId := some t.bidderId }
      | none => a
    else { a with status := .ended }
  else a

/-- The lazy expiry sweep run at the top of the auction read operations. -/
def checkAndEndAuctions (now : ℚ) (s : AuctionState) : AuctionState :=
  { s with auctions := s.auctions.map (expireAuction now s.bids) }

/-- Method getAuctionById: sweep, then look the auction up. -/
def getAuctionById (now : ℚ) (s : AuctionState) (id : ℕ) :
    AuctionState × Except AuctionErr Auction :=
  let s1 := checkAndEndAuctions now s
  match s1.auctions.find? (fun a => a.id == id) with
  | none => (s1, .error .auctionNotFound)
  | some a => (s1, .ok a)

/-- Method getActiveAuctionCount: sweep, then count active auctions. -/
def getActiveAuctionCount (now : ℚ) (s : AuctionState) : AuctionState × ℕ :=
  let s1 := checkAndEndAuctions now s
  (s1, (s1.auctions.filter (fun a => a.status == .active)).length)

/-- Method getBidsByAuction: returns the auction's bids newest first.  The
source runs no expiry sweep here, so the state component is unchanged. -/
def getBidsByAuction (s : AuctionState) (auctionId : ℕ) :
    AuctionState × List Bid :=
  (s, (s.bids.filter (fun b => b.auctionId == auctionId)).mergeSort
        (fun a b => decide (b.createdAt ≤ a.createdAt)))

/-- Request payload of createAuction (display-only fields elided). -/
structure CreateAuctionData where
  sellerId : ℕ
  startingPrice : ℚ
  endsAt : ℚ
deriving DecidableEq, Repr

/-- Method createAuction. -/
def createAuction (now : ℚ) (s : AuctionState) (d : CreateAuctionData) :
    AuctionState × Auction :=
  let a : Auction :=
    { id := s.nextAuctionId
      sellerId := d.sellerId
      startingPrice := round2 d.startingPrice
      currentPrice := round2 d.startingPrice
      bidCount := 0
      status := .active
      createdAt := now
      endsAt := d.endsAt
      winnerId := none }
  ({ s with auctions := s.auctions ++ [a], nextAuctionId := s.nextAuctionId + 1 }, a)

/-- Method placeBid: sweep, find, validate (absent, inactive, expired,
self-bid, below minimum increment), then append the bid and bump the
auction.  Failures after the sweep do not touch the swept state, so the
error value alone describes them. -/
def placeBid (now : ℚ) (s : AuctionState) (auctionId bidderId : ℕ) (amount : ℚ) :
    Except AuctionErr (AuctionState × Bid) :=
  let s1 := checkAndEndAuctions now s
  match s1.auctions.find? (fun a => a.id == auctionId) with
  | none => .error .auctionNotFound
  | some auction =>
    if auction.status ≠ .active then .error .noLongerActive
    else if auction.endsAt ≤ now then .error .auctionEnded
    else if auction.sellerId == bidderId then .error .ownAuction
    else
      let minBid := round2 (auction.currentPrice + 1)
      if amount < minBid then .error .bidTooLow
      else
        let bid : Bid :=
          { id := s1.nextBidId
            auctionId := auctionId
            bidderId := bidderId
            amount := round2 amount
            createdAt := now }
        .ok
          ({ s1 with
              bids := s1.bids ++ [bid]
              nextBidId := s1.nextBidId + 1
              auctions := updateFirst (fun a => a.id == auctionId)
                (fun a => { a with currentPrice := bid.amount, bidCount := a.bidCount + 1 })
                s1.auctions },
            bid)

/-- Method cancelAuction: no expiry sweep; only the seller may cancel, only
while the status is still active. -/
def cancelAuction (s : AuctionState) (auctionId sellerId : ℕ) :
    Except AuctionErr (AuctionState × Auction) :=
  match s.auctions.find? (fun a => a.id == auctionId) with
  | none => .error .auctionNotFound
  | some auction =>
    if auction.sellerId ≠ sellerId then .error .notYourAuction
    else if auction.status ≠ .active then .error .onlyActiveCanBeCancelled
    else
      .ok
        ({ s with
            auctions := updateFirst (fun a => a.id == auctionId)
              (fun a => { a with status := .cancelled }) s.auctions },
          { auction with status := .cancelled })

/-- Method updateAuctionStatus (admin): overwrites the status unconditionally. -/
def updateAuctionStatus (s : AuctionState) (id : ℕ) (status : AuctionStatus) :
    Except AuctionErr (AuctionState × Auction) :=
  match s.auctions.find? (fun a => a.id == id) with
  | none => .error .auctionNotFound
  | some auction =>
    .ok
      ({ s with
          auctions := updateFirst (fun a => a.id == id)
            (fun a => { a with status := status }) s.auctions },
        { auction with status := status })

/-- The six seed auctions.  Timestamps are hours relative to service
construction: daysAgo(3) is -72, daysFromNow(2) is 48, hoursFromNow(5) is 5. -/
def seedAuctions : List Auction :=
  [ { id := 1, sellerId := 100, startingPrice := 45, currentPrice := 78, bidCount := 4,
      status := .active, createdAt := -72, endsAt := 48, winnerId := none },
    { id := 2, sellerId := 998, startingPrice := 120, currentPrice := 185, bidCount := 3,
      status := .active, createdAt := -48, endsAt := 5, winnerId := none },
    { id := 3, sellerId := 101, startingPrice := 60, currentPrice := 95, bidCount := 3,
      status := .active, createdAt := -96, endsAt := 24, winnerId := none },
    { id := 4, sellerId := 102, startingPrice := 35, currentPrice := 52, bidCount := 2,
      status := .active, createdAt := -24, endsAt := 72, winnerId := none },
    { id := 5, sellerId := 998, startingPrice := 80, currentPrice := 145, bidCount := 5,
      status := .sold, createdAt := -240, endsAt := -24, winnerId := some 101 },
    { id := 6, sellerId := 100, startingPrice := 55, currentPrice := 55, bidCount := 0,
      status := .cancelled, createdAt := -168, endsAt := -48, winnerId := none } ]

/-- The seventeen seed bids (daysAgo(2.5) is -60, daysAgo(0.8) is -96/5). -/
def seedBids : List Bid :=
  [ { id := 1,  auctionId := 1, bidderId := 998, amount := 50,  createdAt := -60 },
    { id := 2,  auctionId := 1, bidderId := 101, amount := 58,  createdAt := -48 },
    { id := 3,  auctionId := 1, bidderId := 102, amount := 65,  createdAt := -36 },
    { id := 4,  auctionId := 1, bidderId := 998, amount := 78,  createdAt := -24 },
    { id := 5,  auctionId := 2, bidderId := 100, amount := 135, createdAt := -36 },
    { id := 6,  auctionId := 2, bidderId := 101, amount := 155, createdAt := -24 },
    { id := 7,  auctionId := 2, bidderId := 100, amount := 185, createdAt := -12 },
    { id := 8,  auctionId := 3, bidderId := 998, amount := 70,  createdAt := -72 },
    { id := 9,  auctionId := 3, bidderId := 102, amount := 82,  createdAt := -48 },
    { id := 10, auctionId := 3, bidderId := 998, amount := 95,  createdAt := -24 },
    { id := 11, auctionId := 4, bidderId := 998, amount := 42,  createdAt := mkRat (-96) 5 },
    { id := 12, auctionId := 4, bidderId := 100, amount := 52,  createdAt := mkRat (-36) 5 },
    { id := 13, auctionId := 5, bidderId := 100, amount := 90,  createdAt := -192 },
    { id := 14, auctionId := 5, bidderId := 101, amount := 105, createdAt := -144 },
    { id := 15, auctionId := 5, bidderId := 102, amount := 120, createdAt := -96 },
    { id := 16, auctionId := 5, bidderId := 100, amount := 132, createdAt := -72 },
    { id := 17, auctionId := 5, bidderId := 101, amount := 145, createdAt := -48 } ]

/-- The AuctionService state right after construction. -/
def initAuctionState : AuctionState :=
  { auctions := seedAuctions, bids := seedBids, nextAuctionId := 7, nextBidId := 18 }

/-- One externally triggered transition of the auction engine: a lazy expiry
sweep (run by every sweeping read, and by the error paths of placeBid), a
successful createAuction, placeBid, cancelAuction or updateAuctionStatus.
Failed cancel and status updates leave the state untouched, and a failed
placeBid changes the state exactly as a sweep does, so no extra constructors
are needed for them. -/
inductive AStep : AuctionState → AuctionState → Prop where
  | sweep (now : ℚ) (s : AuctionState) : AStep s (checkAndEndAuctions now s)
  | create (now : ℚ) (d : CreateAuctionData) (s : AuctionState) :
      AStep s (createAuction now s d).1
  | bid (now : ℚ) (auctionId bidderId : ℕ) (amount : ℚ) (s s' : AuctionState) (b : Bid)
      (h : placeBid now s auctionId bidderId amount = .ok (s', b)) : AStep s s'
  | cancel (auctionId sellerId : ℕ) (s s' : AuctionState) (a : Auction)
      (h : cancelAuction s auctionId sellerId = .ok (s', a)) : AStep s s'
  | setStatus (id : ℕ) (status : AuctionStatus) (s s' : AuctionState) (a : Auction)
      (h : updateAuctionStatus s id status = .ok (s', a)) : AStep s s'

/-- States of the auction engine reachable from the seeded initial state. -/
def AReachable (s : AuctionState) : Prop :=
  Relation.ReflTransGen AStep initAuctionState s

/-- The derived price of an auction: the maximum of the starting price and
all bid amounts of its ledger. -/
def ledgerMax (startingPrice : ℚ) (amounts : List ℚ) : ℚ :=
  amounts.foldl max startingPrice

/-- The part of the auction ledger invariant stated by the specification:
currentPrice is the maximum of startingPrice and the bid amounts, and
bidCount counts the auction's bids. -/
def auctionLedgerInv (s : AuctionState) : Prop :=
  ∀ a ∈ s.auctions,
    a.currentPrice = ledgerMax a.startingPrice ((auctionBids s.bids a.id).map Bid.amount) ∧
    a.bidCount = (auctionBids s.bids a.id).length

/-- Strengthened inductive invariant: the ledger invariant, plus id
bookkeeping (all ids below the id counter, auction ids distinct) and the
fact that every stored price is an exact number of cents. -/
def auctionInvFull (s : AuctionState) : Prop :=
  auctionLedgerInv s ∧
  (∀ a ∈ s.auctions, a.id < s.nextAuctionId ∧
      round2 a.currentPrice = a.currentPrice ∧ round2 a.startingPrice = a.startingPrice) ∧
  (∀ b ∈ s.bids, b.auctionId < s.nextAuctionId ∧ round2 b.amount = b.amount) ∧
  (s.auctions.map Auction.id).Nodup

/-- Position-wise price evolution across one step: the auctions already
present keep their id and never lower their current price. -/
def priceMono (s s' : AuctionState) : Prop :=
  List.Forall₂ (fun x y => x.id = y.id ∧ x.currentPrice ≤ y.currentPrice)
    s.auctions (s'.auctions.take s.auctions.length)

/-! ## Order engine (src/app/services/order.service.ts) -/

/-- Order status workflow values. -/
inductive OrderStatus where
  | pending
  | processing
  | shipped
  | delivered
  | cancelled
deriving DecidableEq, Repr

/-- A line item of an in-memory order (joined display fields elided). -/
structure OrderItemT where
  id : ℕ
  order_id : ℕ
  product_id : ℕ
  quantity : ℕ
  price_at_purchase : ℚ
deriving DecidableEq, Repr

/-- An in-memory order with its computed cost breakdown (customer display
fields elided; created_at kept only as an opaque tag). -/
structure StoreOrder where
  id : ℕ
  orderNumber : String
  user_id : ℕ
  status : OrderStatus
  subtotal : ℚ
  tax : ℚ
  fees : ℚ
  total : ℚ
  shipping_address : String
  items : List OrderItemT
deriving DecidableEq, Repr

/-- Tax rate constant TAX_RATE = 0.0825. -/
def TAX_RATE : ℚ := 825 / 10000

/-- Flat shipping and processing fee FLAT_FEE = 4.99. -/
def FLAT_FEE : ℚ := 499 / 100

/-- Source helper buildOrder: derives subtotal, tax, fees and total from the
line items. -/
def buildOrder (id : ℕ) (orderNumber : String) (userId : ℕ) (status : OrderStatus)
    (address : String) (items : List OrderItemT) : StoreOrder :=
  let subtotal := round2 (items.foldl (fun s i => s + i.price_at_purchase * (i.quantity : ℚ)) 0)
  let tax := round2 (subtotal * TAX_RATE)
  let fees := FLAT_FEE
  let total := round2 (subtotal + tax + fees)
  { id := id, orderNumber := orderNumber, user_id := userId, status := status,
    subtotal := subtotal, tax := tax, fees := fees, total := total,
    shipping_address := address, items := items }

/-- The five seed orders of OrderService. -/
def seedOrders : List StoreOrder :=
  [ buildOrder 1 "ORD-10001" 998 .pending "742 Evergreen Terrace, Springfield, IL 62704"
      [ { id := 1, order_id := 1, product_id := 1, quantity := 1, price_at_purchase := 79.99 },
        { id := 2, order_id := 1, product_id := 10, quantity := 2, price_at_purchase := 29.99 } ],
    buildOrder 2 "ORD-10002" 100 .processing "1600 Pennsylvania Ave NW, Washington, DC 20500"
      [ { id := 3, order_id := 2, product_id := 2, quantity := 1, price_at_purchase := 199.99 } ],
    buildOrder 3 "ORD-10003" 101 .shipped "350 Fifth Avenue, New York, NY 10118"
      [ { id := 4, order_id := 3, product_id := 7, quantity := 1, price_at_purchase := 34.99 },
        { id := 5, order_id := 3, product_id := 8, quantity := 1, price_at_purchase := 44.99 },
        { id := 6, order_id := 3, product_id := 9, quantity := 1, price_at_purchase := 39.99 } ],
    buildOrder 4 "ORD-10004" 102 .delivered "221B Baker Street, London, CA 90210"
      [ { id := 7, order_id := 4, product_id := 4, quantity := 1, price_at_purchase := 89.99 },
        { id := 8, order_id := 4, product_id := 5, quantity := 1, price_at_purchase := 129.99 } ],
    buildOrder 5 "ORD-10005" 998 .cancelled "742 Evergreen Terrace, Springfield, IL 62704"
      [ { id := 9, order_id := 5, product_id := 11, quantity := 3, price_at_purchase := 54.99 } ] ]

/-- Method getTotalRevenue: rounded sum of total over non-cancelled orders. -/
def getTotalRevenue (orders : List StoreOrder) : ℚ :=
  round2 ((orders.filter (fun o => o.status ≠ .cancelled)).foldl (fun sum o => sum + o.total) 0)

/-- Method getOrderCount: the length of the orders array, with no status
filter in the source. -/
def getOrderCount (orders : List StoreOrder) : ℕ :=
  orders.length

/-- Method updateOrderStatus of OrderService: overwrite the status of the
order with the given id, or throw 404. -/
def updateOrderStatus (orders : List StoreOrder) (id : ℕ) (status : OrderStatus) :
    Except Unit (List StoreOrder × StoreOrder) :=
  match orders.find? (fun o => o.id == id) with
  | none => .error ()
  | some o =>
    .ok (updateFirst (fun o => o.id == id) (fun o => { o with status := status }) orders,
      { o with status := status })

/-! ## Backend order routes (src/backend, POST /api/orders and
PUT /api/orders/:id/status) -/

/-- A row of the users table (the only column the order routes touch is the
id that orders.user_id references). -/
structure UserRow where
  id : ℕ
deriving DecidableEq, Repr

/-- A row of the products table (columns the order routes touch). -/
structure ProductRow where
  id : ℕ
  price : ℚ
  stock : ℤ
deriving DecidableEq, Repr

/-- A row of the orders table. -/
structure OrderRow where
  id : ℕ
  user_id : ℕ
  status : String
  total : ℚ
  shipping_address : String
deriving DecidableEq, Repr

/-- A row of the order_items table. -/
structure OrderItemRow where
  order_id : ℕ
  product_id : ℕ
  quantity : ℕ
  price_at_purchase : ℚ
deriving DecidableEq, Repr

/-- The relational store visible to the order routes, with the tables the
seed script of backend/middleware creates. -/
structure Db where
  users : List UserRow
  products : List ProductRow
  orders : List OrderRow
  orderItems : List OrderItemRow
  nextOrderId : ℕ
deriving DecidableEq, Repr

/-- HTTP-level failures of the order routes, one per distinct response. -/
inductive ApiErr where
  | emptyItems
  | missingAddress
  | invalidStatus
  | orderNotFound
  | serverError
deriving DecidableEq, Repr

/-- One requested item of POST /api/orders: productId, quantity and the
caller-supplied price snapshot. -/
structure NewItem where
  productId : ℕ
  quantity : ℕ
  price : ℚ
deriving DecidableEq, Repr

/-- JavaScript falsiness of an optional string: absent or empty. -/
def jsFalsyStr : Option String → Bool
  | none => true
  | some s => s.isEmpty

/-- The order total computed by the POST handler: the plain sum of
price times quantity, with no tax and no fee. -/
def orderItemsTotal (items : List NewItem) : ℚ :=
  items.foldl (fun sum item => sum + item.price * (item.quantity : ℚ)) 0

/-- The body of the handler's per-item loop.  The seed script in
backend/middleware declares order_items with
product_id INTEGER REFERENCES products(id), so the INSERT of an item row
whose non-null product_id matches no product violates that foreign key and
aborts the transaction; a known product inserts the row and runs the stock
decrement UPDATE (which checks no constraint and may drive stock negative). -/
def insertOrderItems (orderId : ℕ) : List NewItem → Db → Except ApiErr Db
  | [], db => .ok db
  | item :: rest, db =>
    if db.products.any (fun p => p.id == item.productId) then
      insertOrderItems orderId rest
        { db with
            orderItems := db.orderItems ++
              [{ order_id := orderId, product_id := item.productId,
                 quantity := item.quantity, price_at_purchase := item.price }],
            products := db.products.map (fun p =>
              if p.id == item.productId then { p with stock := p.stock - item.quantity } else p) }
    else .error .serverError

/-- The handler's INSERT INTO orders.  The seed script declares orders with
user_id INTEGER REFERENCES users(id); the JWT middleware verifies the token
without consulting the users table, so the id it supplies may no longer
exist there, and then this INSERT violates the foreign key and aborts the
transaction.  New orders take the status column default, pending. -/
def insertOrder (userId : ℕ) (total : ℚ) (addr : String) (db : Db) :
    Except ApiErr (Db × OrderRow) :=
  if db.users.any (fun u => u.id == userId) then
    let order : OrderRow :=
      { id := db.nextOrderId, user_id := userId, status := "pending",
        total := total, shipping_address := addr }
    .ok ({ db with orders := db.orders ++ [order], nextOrderId := db.nextOrderId + 1 }, order)
  else .error .serverError

/-- The POST /api/orders handler: validate, BEGIN, insert the order, insert
each item and decrement its stock, COMMIT; any failure inside the
transaction (a foreign-key violation on the order's user or on an item's
product) rolls every write back, so the handler returns the original store
with a 500. -/
def createOrderApi (db : Db) (userId : ℕ) (items : List NewItem)
    (shippingAddress : Option String) : Db × Except ApiErr OrderRow :=
  if items.isEmpty then (db, .error .emptyItems)
  else if jsFalsyStr shippingAddress then (db, .error .missingAddress)
  else
    let total := orderItemsTotal items
    match insertOrder userId total (shippingAddress.getD "") db with
    | .error _ => (db, .error .serverError)
    | .ok (db1, order) =>
      match insertOrderItems order.id items db1 with
      | .ok db2 => (db2, .ok order)
      | .error _ => (db, .error .serverError)

/-- The allowed order statuses of PUT /api/orders/:id/status. -/
def validStatuses : List String :=
  ["pending", "processing", "shipped", "delivered", "cancelled"]

/-- The PUT /api/orders/:id/status handler: reject a status outside the
allowed set, 404 when no order row matches, otherwise overwrite the status
column unconditionally (id is the primary key, so at most one row matches). -/
def updateOrderStatusApi (db : Db) (id : ℕ) (status : String) :
    Db × Except ApiErr OrderRow :=
  if validStatuses.contains status then
    match db.orders.find? (fun o => o.id == id) with
    | none => (db, .error .orderNotFound)
    | some o =>
      ({ db with
          orders := updateFirst (fun o => o.id == id)
            (fun o => { o with status := status }) db.orders },
        .ok { o with status := status })
  else (db, .error .invalidStatus)

/-! ## Review engine (the in-memory ReviewService) -/

/-- Review moderation status. -/
inductive ReviewStatus where
  | pending
  | approved
  | rejected
deriving DecidableEq, Repr

/-- A review row (title and comment text elided). -/
structure Review where
  id : ℕ
  productId : ℕ
  userId : ℕ
  rating : ℕ
  helpful : ℕ
  status : ReviewStatus
deriving DecidableEq, Repr

/-- The approved reviews of one product. -/
def approvedReviews (reviews : List Review) (productId : ℕ) : List Review :=
  reviews.filter (fun r => r.productId == productId && r.status == ReviewStatus.approved)

/-- Method getAverageRating: the mean rating over approved reviews rounded
to one decimal, or 0 when there is none. -/
def getAverageRating (reviews : List Review) (productId : ℕ) : ℚ :=
  let approved := approvedReviews reviews productId
  if approved.length = 0 then 0
  else (jsRound (approved.foldl (fun s r => s + (r.rating : ℚ)) 0 / approved.length * 10) : ℚ) / 10

/-- The twelve seed reviews (eleven approved, one pending). -/
def seedReviews : List Review :=
  [ { id := 1,  productId := 1, userId := 998, rating := 5, helpful := 8,  status := .approved },
    { id := 2,  productId := 1, userId := 100, rating := 4, helpful := 3,  status := .approved },
    { id := 3,  productId := 1, userId := 101, rating := 4, helpful := 1,  status := .approved },
    { id := 4,  productId := 2, userId := 102, rating := 5, helpful := 12, status := .approved },
    { id := 5,  productId := 2, userId := 998, rating := 4, helpful := 5,  status := .approved },
    { id := 6,  productId := 3, userId := 100, rating := 5, helpful := 6,  status := .approved },
    { id := 7,  productId := 4, userId := 102, rating := 5, helpful := 4,  status := .approved },
    { id := 8,  productId := 4, userId := 101, rating := 3, helpful := 7,  status := .approved },
    { id := 9,  productId := 7, userId := 101, rating := 5, helpful := 15, status := .approved },
    { id := 10, productId := 7, userId := 100, rating := 4, helpful := 2,  status := .approved },
    { id := 11, productId := 5, userId := 998, rating := 5, helpful := 9,  status := .approved },
    { id := 12, productId := 2, userId := 101, rating := 2, helpful := 0,  status := .pending } ]


/-! ## Lemmas about the auction engine -/

/-- The fold step used by topBid. -/
def topStep (acc : Option Bid) (b : Bid) : Option Bid :=
  match acc with
  | none => some b
  | some t => if b.amount > t.amount then some b else some t

theorem topBid_eq_foldl (bids : List Bid) (auctionId : ℕ) :
    topBid bids auctionId = (auctionBids bids auctionId).foldl topStep none := by
  rfl

theorem foldl_topStep_spec :
    ∀ (l : List Bid) (acc : Option Bid) (t : Bid),
      l.foldl topStep acc = some t →
        (t ∈ l ∨ acc = some t) ∧ (∀ b ∈ l, b.amount ≤ t.amount) ∧
          (∀ u, acc = some u → u.amount ≤ t.amount) := by
  intro l
  induction l with
  | nil =>
    intro acc t h
    simp only [List.foldl_nil] at h
    refine ⟨Or.inr h, by simp, fun u hu => ?_⟩
    rw [hu] at h
    simp at h
    rw [h]
  | cons x xs ih =>
    intro acc t h
    simp only [List.foldl_cons] at h
    obtain ⟨hmem, hmax, hacc⟩ := ih (topStep acc x) t h
    have hx : x.amount ≤ t.amount := by
      cases haccv : acc with
      | none =>
        apply hacc
        rw [haccv]
        rfl
      | some u =>
        by_cases hgt : x.amount > u.amount
        · apply hacc
          rw [haccv]
          simp [topStep, hgt]
        · have hu := hacc u (by rw [haccv]; simp [topStep, hgt])
          linarith [not_lt.mp hgt]
    refine ⟨?_, ?_, ?_⟩
    · rcases hmem with hm | hm
      · exact Or.inl (List.mem_cons_of_mem x hm)
      · cases haccv : acc with
        | none =>
          rw [haccv] at hm
          simp [topStep] at hm
          exact Or.inl (by rw [← hm]; exact List.mem_cons_self x xs)
        | some u =>
          rw [haccv] at hm
          by_cases hgt : x.amount > u.amount
          · simp [topStep, hgt] at hm
            exact Or.inl (by rw [← hm]; exact List.mem_cons_self x xs)
          · simp [topStep, hgt] at hm
            subst hm
            exact Or.inr rfl
    · intro b hb
      rcases List.mem_cons.mp hb with rfl | hb2
      · exact hx
      · exact hmax b hb2
    · intro u hu
      by_cases hgt : x.amount > u.amount
      · linarith
      · apply hacc
        rw [hu]
        simp [topStep, hgt]

/-- topBid returns a bid of the auction of maximal amount. -/
theorem topBid_spec {bids : List Bid} {auctionId : ℕ} {t : Bid}
    (h : topBid bids auctionId = some t) :
    t ∈ auctionBids bids auctionId ∧ ∀ b ∈ auctionBids bids auctionId, b.amount ≤ t.amount := by
  rw [topBid_eq_foldl] at h
  obtain ⟨hmem, hmax, _⟩ := foldl_topStep_spec _ none t h
  rcases hmem with hm | hm
  · exact ⟨hm, hmax⟩
  · simp at hm

/-- expireAuction only ever touches status and winnerId. -/
theorem expireAuction_fields (now : ℚ) (bids : List Bid) (a : Auction) :
    (expireAuction now bids a).id = a.id ∧
    (expireAuction now bids a).sellerId = a.sellerId ∧
    (expireAuction now bids a).startingPrice = a.startingPrice ∧
    (expireAuction now bids a).currentPrice = a.currentPrice ∧
    (expireAuction now bids a).bidCount = a.bidCount ∧
    (expireAuction now bids a).createdAt = a.createdAt ∧
    (expireAuction now bids a).endsAt = a.endsAt := by
  unfold expireAuction
  split_ifs with h1 h2
  · cases topBid bids a.id with
    | none => exact ⟨rfl, rfl, rfl, rfl, rfl, rfl, rfl⟩
    | some t => exact ⟨rfl, rfl, rfl, rfl, rfl, rfl, rfl⟩
  · exact ⟨rfl, rfl, rfl, rfl, rfl, rfl, rfl⟩
  · exact ⟨rfl, rfl, rfl, rfl, rfl, rfl, rfl⟩

/-- An auction that is not active, or not yet past its deadline, passes
through expireAuction unchanged. -/
theorem expireAuction_skip {now : ℚ} {bids : List Bid} {a : Auction}
    (h : ¬ (a.status = .active ∧ a.endsAt ≤ now)) :
    expireAuction now bids a = a := by
  unfold expireAuction
  rw [if_neg h]

/-- An expired active auction with bids becomes sold, with the top bidder
as winner. -/
theorem expireAuction_sold {now : ℚ} {bids : List Bid} {a : Auction} {t : Bid}
    (hst : a.status = .active) (hend : a.endsAt ≤ now) (hcnt : 0 < a.bidCount)
    (htop : topBid bids a.id = some t) :
    expireAuction now bids a = { a with status := .sold, winnerId := some t.bidderId } := by
  unfold expireAuction
  rw [if_pos ⟨hst, hend⟩, if_pos hcnt, htop]

/-- An expired active auction with no bids becomes ended. -/
theorem expireAuction_ended {now : ℚ} {bids : List Bid} {a : Auction}
    (hst : a.status = .active) (hend : a.endsAt ≤ now) (hcnt : a.bidCount = 0) :
    expireAuction now bids a = { a with status := .ended } := by
  unfold expireAuction
  rw [if_pos ⟨hst, hend⟩, if_neg (by omega)]

/-- The sweep leaves the ledger and the id counters alone. -/
theorem checkAndEndAuctions_rest (now : ℚ) (s : AuctionState) :
    (checkAndEndAuctions now s).bids = s.bids ∧
    (checkAndEndAuctions now s).nextAuctionId = s.nextAuctionId ∧
    (checkAndEndAuctions now s).nextBidId = s.nextBidId := by
  exact ⟨rfl, rfl, rfl⟩

/-- Looking an auction up by id commutes with the sweep. -/
theorem find?_checkAndEndAuctions (now : ℚ) (s : AuctionState) (auctionId : ℕ) :
    (checkAndEndAuctions now s).auctions.find? (fun a => a.id == auctionId) =
      (s.auctions.find? (fun a => a.id == auctionId)).map (expireAuction now s.bids) := by
  show (s.auctions.map (expireAuction now s.bids)).find? (fun a => a.id == auctionId) = _
  rw [List.find?_map]
  have hp : ((fun a : Auction => a.id == auctionId) ∘ expireAuction now s.bids) =
      (fun a : Auction => a.id == auctionId) := by
    funext a
    simp [Function.comp, (expireAuction_fields now s.bids a).1]
  rw [hp]

/-- The sweep does not change the sequence of auction ids. -/
theorem checkAndEndAuctions_ids (now : ℚ) (s : AuctionState) :
    (checkAndEndAuctions now s).auctions.map Auction.id = s.auctions.map Auction.id := by
  show (s.auctions.map (expireAuction now s.bids)).map Auction.id = _
  rw [List.map_map]
  have hp : (Auction.id ∘ expireAuction now s.bids) = Auction.id := by
    funext a
    simp [Function.comp, (expireAuction_fields now s.bids a).1]
  rw [hp]

/-- Inversion of a successful placeBid: what must have held, and the exact
shape of the new state and the returned bid. -/
theorem placeBid_ok_elim {now : ℚ} {s : AuctionState} {auctionId bidderId : ℕ} {amount : ℚ}
    {s' : AuctionState} {b : Bid}
    (h : placeBid now s auctionId bidderId amount = .ok (s', b)) :
    ∃ a, (checkAndEndAuctions now s).auctions.find? (fun x => x.id == auctionId) = some a ∧
      a.status = .active ∧ ¬ a.endsAt ≤ now ∧ a.sellerId ≠ bidderId ∧
      round2 (a.currentPrice + 1) ≤ amount ∧
      b = { id := (checkAndEndAuctions now s).nextBidId, auctionId := auctionId,
            bidderId := bidderId, amount := round2 amount, createdAt := now } ∧
      s' = { checkAndEndAuctions now s with
              bids := (checkAndEndAuctions now s).bids ++ [b],
              nextBidId := (checkAndEndAuctions now s).nextBidId + 1,
              auctions := updateFirst (fun a => a.id == auctionId)
                (fun a => { a with currentPrice := b.amount, bidCount := a.bidCount + 1 })
                (checkAndEndAuctions now s).auctions } := by
  simp only [placeBid] at h
  cases hfind : (checkAndEndAuctions now s).auctions.find? (fun x => x.id == auctionId) with
  | none =>
    simp only [hfind] at h
    exact absurd h (by simp)
  | some a =>
    simp only [hfind] at h
    refine ⟨a, rfl, ?_⟩
    by_cases h1 : a.status ≠ .active
    · rw [if_pos h1] at h; simp at h
    rw [if_neg h1] at h
    by_cases h2 : a.endsAt ≤ now
    · rw [if_pos h2] at h; simp at h
    rw [if_neg h2] at h
    by_cases h3 : a.sellerId == bidderId
    · rw [if_pos h3] at h; simp at h
    rw [if_neg h3] at h
    by_cases h4 : amount < round2 (a.currentPrice + 1)
    · rw [if_pos h4] at h; simp at h
    rw [if_neg h4] at h
    simp only [Except.ok.injEq, Prod.mk.injEq] at h
    refine ⟨by simpa using h1, h2, by simpa using h3, not_lt.mp h4, h.2.symm, ?_⟩
    rw [← h.1, ← h.2]

/-- Inversion of a successful cancelAuction. -/
theorem cancelAuction_ok_elim {s : AuctionState} {auctionId sellerId : ℕ}
    {s' : AuctionState} {a' : Auction}
    (h : cancelAuction s auctionId sellerId = .ok (s', a')) :
    ∃ a, s.auctions.find? (fun x => x.id == auctionId) = some a ∧
      a.sellerId = sellerId ∧ a.status = .active ∧
      a' = { a with status := .cancelled } ∧
      s' = { s with
              auctions := updateFirst (fun x => x.id == auctionId)
                (fun x => { x with status := .cancelled }) s.auctions } := by
  simp only [cancelAuction] at h
  cases hfind : s.auctions.find? (fun x => x.id == auctionId) with
  | none =>
    simp only [hfind] at h
    exact absurd h (by simp)
  | some a =>
    simp only [hfind] at h
    refine ⟨a, rfl, ?_⟩
    by_cases h1 : a.sellerId ≠ sellerId
    · rw [if_pos h1] at h; simp at h
    rw [if_neg h1] at h
    by_cases h2 : a.status ≠ .active
    · rw [if_pos h2] at h; simp at h
    rw [if_neg h2] at h
    simp only [Except.ok.injEq, Prod.mk.injEq] at h
    exact ⟨by simpa using h1, by simpa using h2, h.2.symm, h.1.symm⟩

/-- Inversion of a successful updateAuctionStatus. -/
theorem updateAuctionStatus_ok_elim {s : AuctionState} {id : ℕ} {status : AuctionStatus}
    {s' : AuctionState} {a' : Auction}
    (h : updateAuctionStatus s id status = .ok (s', a')) :
    ∃ a, s.auctions.find? (fun x => x.id == id) = some a ∧
      a' = { a with status := status } ∧
      s' = { s with
              auctions := updateFirst (fun x => x.id == id)
                (fun x => { x with status := status }) s.auctions } := by
  simp only [updateAuctionStatus] at h
  cases hfind : s.auctions.find? (fun x => x.id == id) with
  | none =>
    simp only [hfind] at h
    exact absurd h (by simp)
  | some a =>
    simp only [hfind] at h
    simp only [Except.ok.injEq, Prod.mk.injEq] at h
    exact ⟨a, rfl, h.2.symm, h.1.symm⟩

/-! ## Ledger invariant lemmas -/

theorem auctionBids_append_eq {b : Bid} (bids : List Bid) (auctionId : ℕ)
    (hb : b.auctionId = auctionId) :
    auctionBids (bids ++ [b]) auctionId = auctionBids bids auctionId ++ [b] := by
  unfold auctionBids
  rw [List.filter_append]
  simp [hb]

theorem auctionBids_append_ne {b : Bid} (bids : List Bid) (auctionId : ℕ)
    (hb : b.auctionId ≠ auctionId) :
    auctionBids (bids ++ [b]) auctionId = auctionBids bids auctionId := by
  unfold auctionBids
  rw [List.filter_append]
  simp [hb]

theorem auctionBids_empty_of_bound {bids : List Bid} {n : ℕ}
    (h : ∀ b ∈ bids, b.auctionId ≠ n) : auctionBids bids n = [] := by
  unfold auctionBids
  rw [List.filter_eq_nil_iff]
  intro b hb
  simp [h b hb]

theorem ledgerMax_nil (sp : ℚ) : ledgerMax sp [] = sp := rfl

theorem ledgerMax_append_one (sp : ℚ) (l : List ℚ) (x : ℚ) :
    ledgerMax sp (l ++ [x]) = max (ledgerMax sp l) x := by
  unfold ledgerMax
  rw [List.foldl_append]
  rfl

theorem foldl_max_init_mono {sp sp' : ℚ} (h : sp ≤ sp') :
    ∀ l : List ℚ, l.foldl max sp ≤ l.foldl max sp' := by
  intro l
  induction l generalizing sp sp' with
  | nil => exact h
  | cons x xs ih =>
    simp only [List.foldl_cons]
    exact ih (max_le_max h le_rfl)

theorem le_ledgerMax (sp : ℚ) : ∀ l : List ℚ, sp ≤ ledgerMax sp l := by
  intro l
  induction l generalizing sp with
  | nil => exact le_rfl
  | cons x xs ih =>
    unfold ledgerMax at ih ⊢
    simp only [List.foldl_cons]
    exact le_trans (le_max_left sp x) (ih (max sp x))

theorem mem_le_ledgerMax (sp : ℚ) {x : ℚ} :
    ∀ l : List ℚ, x ∈ l → x ≤ ledgerMax sp l := by
  intro l
  induction l generalizing sp with
  | nil => intro h; simp at h
  | cons y ys ih =>
    intro h
    unfold ledgerMax
    simp only [List.foldl_cons]
    rcases List.mem_cons.mp h with rfl | h2
    · exact le_trans (le_max_right sp x) (le_ledgerMax (max sp x) ys)
    · exact ih (max sp y) h2

/-- The strengthened invariant holds in the seeded initial state. -/
theorem auctionInvFull_init : auctionInvFull initAuctionState := by
  refine ⟨?_, ?_, ?_, ?_⟩
  · intro a ha
    fin_cases ha <;>
      refine ⟨by decide, by decide⟩
  · intro a ha
    fin_cases ha <;>
      exact ⟨by decide, by norm_num [round2, jsRound], by norm_num [round2, jsRound]⟩
  · intro b hb
    fin_cases hb <;>
      exact ⟨by decide, by norm_num [round2, jsRound]⟩
  · decide

/-- The lazy expiry sweep preserves the strengthened invariant. -/
theorem auctionInvFull_sweep (now : ℚ) {s : AuctionState} (h : auctionInvFull s) :
    auctionInvFull (checkAndEndAuctions now s) := by
  obtain ⟨hinv, hbound, hbids, hnodup⟩ := h
  refine ⟨?_, ?_, ?_, ?_⟩
  · intro a' ha'
    have ha2 : a' ∈ s.auctions.map (expireAuction now s.bids) := ha'
    rw [List.mem_map] at ha2
    obtain ⟨a, ha, rfl⟩ := ha2
    obtain ⟨f1, _, f3, f4, f5, _, _⟩ := expireAuction_fields now s.bids a
    have hb : (checkAndEndAuctions now s).bids = s.bids := rfl
    rw [hb, f1, f3, f4, f5]
    exact hinv a ha
  · intro a' ha'
    have ha2 : a' ∈ s.auctions.map (expireAuction now s.bids) := ha'
    rw [List.mem_map] at ha2
    obtain ⟨a, ha, rfl⟩ := ha2
    obtain ⟨f1, _, f3, f4, _, _, _⟩ := expireAuction_fields now s.bids a
    rw [f1, f3, f4]
    exact hbound a ha
  · exact hbids
  · rw [checkAndEndAuctions_ids]
    exact hnodup

/-- createAuction preserves the strengthened invariant. -/
theorem auctionInvFull_create (now : ℚ) (d : CreateAuctionData) {s : AuctionState}
    (h : auctionInvFull s) : auctionInvFull (createAuction now s d).1 := by
  obtain ⟨hinv, hbound, hbids, hnodup⟩ := h
  have hfresh : auctionBids s.bids s.nextAuctionId = [] :=
    auctionBids_empty_of_bound (fun b hb => Nat.ne_of_lt (hbids b hb).1)
  refine ⟨?_, ?_, ?_, ?_⟩
  · intro a ha
    have ha2 : a ∈ s.auctions ++ [_] := ha
    rcases List.mem_append.mp ha2 with hmem | hmem
    · exact hinv a hmem
    · simp only [List.mem_singleton] at hmem
      subst hmem
      constructor
      · show round2 d.startingPrice =
          ledgerMax (round2 d.startingPrice) ((auctionBids s.bids s.nextAuctionId).map Bid.amount)
        rw [hfresh]
        rfl
      · show 0 = (auctionBids s.bids s.nextAuctionId).length
        rw [hfresh]
        rfl
  · intro a ha
    have ha2 : a ∈ s.auctions ++ [_] := ha
    rcases List.mem_append.mp ha2 with hmem | hmem
    · obtain ⟨h1, h2, h3⟩ := hbound a hmem
      exact ⟨Nat.lt_succ_of_lt h1, h2, h3⟩
    · simp only [List.mem_singleton] at hmem
      subst hmem
      exact ⟨Nat.lt_succ_self _, round2_idem _, round2_idem _⟩
  · intro b hb
    obtain ⟨h1, h2⟩ := hbids b hb
    exact ⟨Nat.lt_succ_of_lt h1, h2⟩
  · show (List.map Auction.id (s.auctions ++ [_])).Nodup
    rw [List.map_append]
    rw [List.nodup_append]
    refine ⟨hnodup, List.nodup_singleton _, ?_⟩
    intro x hx
    simp only [List.map_cons, List.map_nil, List.mem_singleton]
    rw [List.mem_map] at hx
    obtain ⟨a, ha, rfl⟩ := hx
    exact Nat.ne_of_lt (hbound a ha).1

/-- Replacing the first matching auction by one with the same id, prices and
bid count preserves the strengthened invariant (covers cancelAuction and
updateAuctionStatus, which only rewrite the status). -/
theorem auctionInvFull_updateFirst {s : AuctionState} (p : Auction → Bool) (f : Auction → Auction)
    (hf : ∀ x, (f x).id = x.id ∧ (f x).currentPrice = x.currentPrice ∧
      (f x).startingPrice = x.startingPrice ∧ (f x).bidCount = x.bidCount)
    (h : auctionInvFull s) :
    auctionInvFull { s with auctions := updateFirst p f s.auctions } := by
  obtain ⟨hinv, hbound, hbids, hnodup⟩ := h
  refine ⟨?_, ?_, hbids, ?_⟩
  · intro a ha
    have ha2 : a ∈ updateFirst p f s.auctions := ha
    rcases mem_updateFirst p f s.auctions a ha2 with hmem | ⟨x, hx, rfl⟩
    · exact hinv a hmem
    · obtain ⟨f1, f2, f3, f4⟩ := hf x
      rw [f1, f2, f3, f4]
      exact hinv x hx
  · intro a ha
    have ha2 : a ∈ updateFirst p f s.auctions := ha
    rcases mem_updateFirst p f s.auctions a ha2 with hmem | ⟨x, hx, rfl⟩
    · exact hbound a hmem
    · obtain ⟨f1, f2, f3, _⟩ := hf x
      rw [f1, f2, f3]
      exact hbound x hx
  · show ((updateFirst p f s.auctions).map Auction.id).Nodup
    rw [updateFirst_map p f Auction.id (fun x => (hf x).1)]
    exact hnodup

/-- A successful placeBid preserves the strengthened invariant. -/
theorem auctionInvFull_placeBid {now : ℚ} {s s' : AuctionState} {auctionId bidderId : ℕ}
    {amount : ℚ} {b : Bid}
    (hok : placeBid now s auctionId bidderId amount = .ok (s', b))
    (h : auctionInvFull s) : auctionInvFull s' := by
  obtain ⟨a, hfind, hst, hend, hsell, hamt, hb, hs'⟩ := placeBid_ok_elim hok
  have h1 : auctionInvFull (checkAndEndAuctions now s) := auctionInvFull_sweep now h
  set s1 := checkAndEndAuctions now s with hs1
  obtain ⟨hinv, hbound, hbids, hnodup⟩ := h1
  have haid : a.id = auctionId := by
    have := List.find?_some hfind
    simpa using this
  have hamem : a ∈ s1.auctions := List.mem_of_find?_eq_some hfind
  have hcents : round2 a.currentPrice = a.currentPrice := (hbound a hamem).2.1
  have hba : b.auctionId = auctionId := by rw [hb]
  have hbam : b.amount = round2 amount := by rw [hb]
  have hbid2 : b.id = s1.nextBidId := by rw [hb]
  -- the accepted amount strictly exceeds the old current price
  have hlt : a.currentPrice < b.amount := by
    have e1 : round2 (a.currentPrice + 1) = a.currentPrice + 1 := round2_fixed_add_one hcents
    have e2 : round2 (a.currentPrice + 1) ≤ round2 amount := by
      calc round2 (a.currentPrice + 1) = round2 (round2 (a.currentPrice + 1)) :=
            (round2_idem _).symm
        _ ≤ round2 amount := round2_mono hamt
    rw [e1] at e2
    rw [hbam]
    linarith
  obtain ⟨l1, l2, hdec, hl1, hupd⟩ := updateFirst_decomp (fun x => x.id == auctionId)
    (fun x => { x with currentPrice := b.amount, bidCount := x.bidCount + 1 }) s1.auctions a hfind
  have hothers : ∀ x, (x ∈ l1 ∨ x ∈ l2) → x.id ≠ auctionId := by
    intro x hx
    rcases hx with hx | hx
    · have := hl1 x hx
      simpa using this
    · intro hxid
      have hids : (s1.auctions.map Auction.id) = l1.map Auction.id ++ a.id :: l2.map Auction.id := by
        rw [hdec]; simp
      rw [hids] at hnodup
      have hnd := (List.nodup_append.mp hnodup).2.1
      have hnotin : a.id ∉ l2.map Auction.id := (List.nodup_cons.mp hnd).1
      exact hnotin (by rw [haid, ← hxid]; exact List.mem_map_of_mem Auction.id hx)
  subst hs'
  refine ⟨?_, ?_, ?_, ?_⟩
  · intro x hx
    have hx2 : x ∈ l1 ++
        ({ a with currentPrice := b.amount, bidCount := a.bidCount + 1 } : Auction) :: l2 :=
      hupd ▸ hx
    rcases List.mem_append.mp hx2 with hmem | hmem
    · have hxin : x ∈ s1.auctions := by rw [hdec]; exact List.mem_append_left _ hmem
      have hne : x.id ≠ auctionId := hothers x (Or.inl hmem)
      have heq : auctionBids (s1.bids ++ [b]) x.id = auctionBids s1.bids x.id :=
        auctionBids_append_ne s1.bids x.id (by rw [hba]; exact fun hc => hne hc.symm)
      show x.currentPrice = ledgerMax x.startingPrice ((auctionBids (s1.bids ++ [b]) x.id).map Bid.amount) ∧
        x.bidCount = (auctionBids (s1.bids ++ [b]) x.id).length
      rw [heq]
      exact hinv x hxin
    · rcases List.mem_cons.mp hmem with rfl | hmem2
      · have heq : auctionBids (s1.bids ++ [b]) a.id = auctionBids s1.bids a.id ++ [b] :=
          auctionBids_append_eq s1.bids a.id (by rw [hba, haid])
        refine ⟨?_, ?_⟩
        · show b.amount = ledgerMax a.startingPrice ((auctionBids (s1.bids ++ [b]) a.id).map Bid.amount)
          rw [heq]
          simp only [List.map_append, List.map_cons, List.map_nil]
          rw [ledgerMax_append_one]
          have hmax : ledgerMax a.startingPrice ((auctionBids s1.bids a.id).map Bid.amount) =
              a.currentPrice := ((hinv a hamem).1).symm
          rw [hmax]
          exact (max_eq_right (le_of_lt hlt)).symm
        · show a.bidCount + 1 = (auctionBids (s1.bids ++ [b]) a.id).length
          rw [heq, List.length_append]
          have hcount := (hinv a hamem).2
          simp [hcount]
      · have hxin : x ∈ s1.auctions := by
          rw [hdec]
          exact List.mem_append_right _ (List.mem_cons_of_mem a hmem2)
        have hne : x.id ≠ auctionId := hothers x (Or.inr hmem2)
        have heq : auctionBids (s1.bids ++ [b]) x.id = auctionBids s1.bids x.id :=
          auctionBids_append_ne s1.bids x.id (by rw [hba]; exact fun hc => hne hc.symm)
        show x.currentPrice = ledgerMax x.startingPrice ((auctionBids (s1.bids ++ [b]) x.id).map Bid.amount) ∧
          x.bidCount = (auctionBids (s1.bids ++ [b]) x.id).length
        rw [heq]
        exact hinv x hxin
  · intro x hx
    have hx2 : x ∈ l1 ++
        ({ a with currentPrice := b.amount, bidCount := a.bidCount + 1 } : Auction) :: l2 :=
      hupd ▸ hx
    rcases List.mem_append.mp hx2 with hmem | hmem
    · exact hbound x (by rw [hdec]; exact List.mem_append_left _ hmem)
    · rcases List.mem_cons.mp hmem with rfl | hmem2
      · obtain ⟨g1, g2, g3⟩ := hbound a hamem
        refine ⟨g1, ?_, g3⟩
        show round2 b.amount = b.amount
        rw [hbam]
        exact round2_idem _
      · exact hbound x (by rw [hdec]; exact List.mem_append_right _ (List.mem_cons_of_mem a hmem2))
  · intro x hx
    have hx2 : x ∈ s1.bids ++ [b] := hx
    rcases List.mem_append.mp hx2 with hmem | hmem
    · exact hbids x hmem
    · simp only [List.mem_singleton] at hmem
      subst hmem
      refine ⟨?_, ?_⟩
      · show x.auctionId < s1.nextAuctionId
        rw [hba, ← haid]
        exact (hbound a hamem).1
      · show round2 x.amount = x.amount
        rw [hbam]
        exact round2_idem _
  · show ((updateFirst (fun x => x.id == auctionId)
      (fun x => { x with currentPrice := b.amount, bidCount := x.bidCount + 1 })
      s1.auctions).map Auction.id).Nodup
    rw [updateFirst_map (fun x => x.id == auctionId)
      (fun x => { x with currentPrice := b.amount, bidCount := x.bidCount + 1 })
      Auction.id (fun x => rfl)]
    exact hnodup

/-- Every reachable state of the auction engine satisfies the strengthened
invariant. -/
theorem auctionInvFull_reachable {s : AuctionState} (h : AReachable s) :
    auctionInvFull s := by
  induction h with
  | refl => exact auctionInvFull_init
  | tail h1 hstep ih =>
    cases hstep with
    | sweep now s => exact auctionInvFull_sweep now ih
    | create now d s => exact auctionInvFull_create now d ih
    | bid now auctionId bidderId amount s s' b hok => exact auctionInvFull_placeBid hok ih
    | cancel auctionId sellerId s s' a hok =>
      obtain ⟨x, hfind, hsell, hst, ha', hs'⟩ := cancelAuction_ok_elim hok
      rw [hs']
      exact auctionInvFull_updateFirst _ _ (fun x => ⟨rfl, rfl, rfl, rfl⟩) ih
    | setStatus id status s s' a hok =>
      obtain ⟨x, hfind, ha', hs'⟩ := updateAuctionStatus_ok_elim hok
      rw [hs']
      exact auctionInvFull_updateFirst _ _ (fun x => ⟨rfl, rfl, rfl, rfl⟩) ih

/-- Auctions keep their id and never lower their price across any single
step out of an invariant-satisfying state. -/
theorem priceMono_step {s s' : AuctionState} (hinv : auctionInvFull s) (hstep : AStep s s') :
    priceMono s s' := by
  have hrefl : ∀ x : Auction, x.id = x.id ∧ x.currentPrice ≤ x.currentPrice :=
    fun x => ⟨rfl, le_rfl⟩
  have htrans : ∀ x y z : Auction,
      (x.id = y.id ∧ x.currentPrice ≤ y.currentPrice) →
      (y.id = z.id ∧ y.currentPrice ≤ z.currentPrice) →
      (x.id = z.id ∧ x.currentPrice ≤ z.currentPrice) :=
    fun x y z h1 h2 => ⟨h1.1.trans h2.1, le_trans h1.2 h2.2⟩
  cases hstep with
  | sweep now s =>
    unfold priceMono
    have hlen : (checkAndEndAuctions now s).auctions.length = s.auctions.length := by
      show (s.auctions.map _).length = _
      rw [List.length_map]
    rw [List.take_of_length_le (le_of_eq hlen)]
    exact forall₂_map_self _ _ (fun x =>
      ⟨((expireAuction_fields now s.bids x).1).symm,
        le_of_eq ((expireAuction_fields now s.bids x).2.2.2.1).symm⟩) s.auctions
  | create now d s =>
    unfold priceMono
    show List.Forall₂ _ s.auctions ((s.auctions ++ [_]).take s.auctions.length)
    rw [List.take_left]
    exact List.forall₂_same.mpr (fun y _ => hrefl y)
  | bid now auctionId bidderId amount s s' b hok =>
    obtain ⟨a, hfind, hst, hend, hsell, hamt, hb, hs'⟩ := placeBid_ok_elim hok
    have h1 : auctionInvFull (checkAndEndAuctions now s) := auctionInvFull_sweep now hinv
    set s1 := checkAndEndAuctions now s with hs1
    obtain ⟨hinv1, hbound, hbids, hnodup⟩ := h1
    have haid : a.id = auctionId := by
      have := List.find?_some hfind
      simpa using this
    have hamem : a ∈ s1.auctions := List.mem_of_find?_eq_some hfind
    have hcents : round2 a.currentPrice = a.currentPrice := (hbound a hamem).2.1
    have hbam : b.amount = round2 amount := by rw [hb]
    have hlt : a.currentPrice < b.amount := by
      have e1 : round2 (a.currentPrice + 1) = a.currentPrice + 1 := round2_fixed_add_one hcents
      have e2 : round2 (a.currentPrice + 1) ≤ round2 amount := by
        calc round2 (a.currentPrice + 1) = round2 (round2 (a.currentPrice + 1)) :=
              (round2_idem _).symm
          _ ≤ round2 amount := round2_mono hamt
      rw [e1] at e2
      rw [hbam]
      linarith
    unfold priceMono
    have hm1 : List.Forall₂ (fun x y => x.id = y.id ∧ x.currentPrice ≤ y.currentPrice)
        s.auctions s1.auctions := by
      have : s1.auctions = s.auctions.map (expireAuction now s.bids) := rfl
      rw [this]
      exact forall₂_map_self _ _ (fun x =>
        ⟨((expireAuction_fields now s.bids x).1).symm,
          le_of_eq ((expireAuction_fields now s.bids x).2.2.2.1).symm⟩) s.auctions
    have hm2 : List.Forall₂ (fun x y => x.id = y.id ∧ x.currentPrice ≤ y.currentPrice)
        s1.auctions (updateFirst (fun x => x.id == auctionId)
          (fun x => { x with currentPrice := b.amount, bidCount := x.bidCount + 1 })
          s1.auctions) := by
      apply forall₂_updateFirst _ _ _ hrefl
      intro x hx hpx
      have hxid : x.id = auctionId := by simpa using hpx
      have hxa : x = a := by
        have hinj := List.inj_on_of_nodup_map hnodup
        exact hinj hx hamem (by rw [hxid, haid])
      subst hxa
      exact ⟨rfl, le_of_lt hlt⟩
    have hlen : (updateFirst (fun x => x.id == auctionId)
        (fun x => { x with currentPrice := b.amount, bidCount := x.bidCount + 1 })
        s1.auctions).length = s.auctions.length := by
      rw [updateFirst_length]
      show (s.auctions.map _).length = _
      rw [List.length_map]
    have hcomp := forall₂_trans_of htrans hm1 hm2
    rw [hs']
    show List.Forall₂ _ s.auctions ((updateFirst _ _ s1.auctions).take s.auctions.length)
    rw [List.take_of_length_le (le_of_eq hlen)]
    exact hcomp
  | cancel auctionId sellerId s s' a hok =>
    obtain ⟨x, hfind, hsell, hst, ha', hs'⟩ := cancelAuction_ok_elim hok
    rw [hs']
    unfold priceMono
    show List.Forall₂ _ s.auctions ((updateFirst _ _ s.auctions).take s.auctions.length)
    rw [List.take_of_length_le (le_of_eq (updateFirst_length _ _ s.auctions))]
    exact forall₂_updateFirst _ _ _ hrefl s.auctions (fun y _ _ => ⟨rfl, le_rfl⟩)
  | setStatus id status s s' a hok =>
    obtain ⟨x, hfind, ha', hs'⟩ := updateAuctionStatus_ok_elim hok
    rw [hs']
    unfold priceMono
    show List.Forall₂ _ s.auctions ((updateFirst _ _ s.auctions).take s.auctions.length)
    rw [List.take_of_length_le (le_of_eq (updateFirst_length _ _ s.auctions))]
    exact forall₂_updateFirst _ _ _ hrefl s.auctions (fun y _ _ => ⟨rfl, le_rfl⟩)

/-! ## Lemmas about the backend order routes -/

/-- Total quantity of a product requested across the items of one order. -/
def orderedQty (pid : ℕ) : List NewItem → ℤ
  | [] => 0
  | i :: rest => (if i.productId == pid then (i.quantity : ℤ) else 0) + orderedQty pid rest

theorem any_id_map (l : List ProductRow) (f : ProductRow → ProductRow)
    (hf : ∀ p, (f p).id = p.id) (pid : ℕ) :
    (l.map f).any (fun p => p.id == pid) = l.any (fun p => p.id == pid) := by
  rw [List.any_map]
  congr 1
  funext p
  simp [Function.comp, hf]

/-- Inversion of a successful order INSERT: the user existed, and the new
row and store have exactly the inserted shape. -/
theorem insertOrder_ok_elim {userId : ℕ} {total : ℚ} {addr : String} {db : Db}
    {db1 : Db} {order : OrderRow}
    (h : insertOrder userId total addr db = .ok (db1, order)) :
    db.users.any (fun u => u.id == userId) = true ∧
    order = { id := db.nextOrderId, user_id := userId, status := "pending",
              total := total, shipping_address := addr } ∧
    db1 = { db with
            orders := db.orders ++ [order],
            nextOrderId := db.nextOrderId + 1 } := by
  simp only [insertOrder] at h
  by_cases hu : db.users.any (fun u => u.id == userId)
  · rw [if_pos hu] at h
    simp only [Except.ok.injEq, Prod.mk.injEq] at h
    exact ⟨hu, h.2.symm, by rw [← h.1, ← h.2]⟩
  · rw [if_neg hu] at h
    exact absurd h (by simp)

/-- Running the item loop when every requested product exists: it succeeds,
appends exactly the item rows, and decrements each product's stock by the
total ordered quantity. -/
theorem insertOrderItems_ok (oid : ℕ) :
    ∀ (items : List NewItem) (db : Db),
      (∀ i ∈ items, db.products.any (fun p => p.id == i.productId) = true) →
      ∃ db2, insertOrderItems oid items db = .ok db2 ∧
        db2.users = db.users ∧
        db2.orders = db.orders ∧ db2.nextOrderId = db.nextOrderId ∧
        db2.orderItems = db.orderItems ++ items.map (fun i =>
          { order_id := oid, product_id := i.productId,
            quantity := i.quantity, price_at_purchase := i.price }) ∧
        db2.products = db.products.map (fun p =>
          { p with stock := p.stock - orderedQty p.id items }) := by
  intro items
  induction items with
  | nil =>
    intro db hpres
    refine ⟨db, rfl, rfl, rfl, rfl, by simp, ?_⟩
    have : (fun p : ProductRow => { p with stock := p.stock - orderedQty p.id [] }) =
        fun p : ProductRow => p := by
      funext p
      simp [orderedQty]
    rw [this, List.map_id']
  | cons i rest ih =>
    intro db hpres
    have hi : db.products.any (fun p => p.id == i.productId) = true :=
      hpres i (List.mem_cons_self i rest)
    have hstep : insertOrderItems oid (i :: rest) db =
        insertOrderItems oid rest
          { db with
              orderItems := db.orderItems ++
                [{ order_id := oid, product_id := i.productId,
                   quantity := i.quantity, price_at_purchase := i.price }],
              products := db.products.map (fun p =>
                if p.id == i.productId then { p with stock := p.stock - i.quantity } else p) } := by
      simp only [insertOrderItems, hi, if_true]
    set db1 : Db :=
      { db with
          orderItems := db.orderItems ++
            [{ order_id := oid, product_id := i.productId,
               quantity := i.quantity, price_at_purchase := i.price }],
          products := db.products.map (fun p =>
            if p.id == i.productId then { p with stock := p.stock - i.quantity } else p) }
      with hdb1
    have hpres1 : ∀ j ∈ rest, db1.products.any (fun p => p.id == j.productId) = true := by
      intro j hj
      have : db1.products.any (fun p => p.id == j.productId) =
          db.products.any (fun p => p.id == j.productId) := by
        apply any_id_map
        intro p
        by_cases hp : p.id == i.productId
        · simp [hp]
        · simp [hp]
      rw [this]
      exact hpres j (List.mem_cons_of_mem i hj)
    obtain ⟨db2, hrun, husers, ho, hn, hitems, hprod⟩ := ih db1 hpres1
    refine ⟨db2, by rw [hstep]; exact hrun, husers, ho, hn, ?_, ?_⟩
    · rw [hitems]
      show db.orderItems ++ _ ++ _ = _
      rw [List.append_assoc]
      rfl
    · rw [hprod]
      show (db.products.map _).map _ = _
      rw [List.map_map]
      congr 1
      funext p
      by_cases hp : p.id == i.productId
      · have hpe : p.id = i.productId := by simpa using hp
        have hq : (i.productId == p.id) = true := by simp [hpe]
        simp only [Function.comp, orderedQty]
        rw [if_pos hp, if_pos hq, ← sub_sub]
      · have hpe : ¬ p.id = i.productId := by simpa using hp
        have hq : ¬ ((i.productId == p.id) = true) := by
          simp
          exact fun hip => hpe hip.symm
        simp only [Function.comp, orderedQty]
        rw [if_neg hp, if_neg hq, zero_add]

/-- Running the item loop when some requested product is unknown: the
foreign key fails and the loop reports an error. -/
theorem insertOrderItems_fails (oid : ℕ) :
    ∀ (items : List NewItem) (db : Db),
      (∃ i ∈ items, db.products.any (fun p => p.id == i.productId) = false) →
      ∃ e, insertOrderItems oid items db = .error e := by
  intro items
  induction items with
  | nil =>
    intro db hmiss
    obtain ⟨i, hi, _⟩ := hmiss
    simp at hi
  | cons i rest ih =>
    intro db hmiss
    by_cases hi : db.products.any (fun p => p.id == i.productId) = true
    · have hstep : insertOrderItems oid (i :: rest) db =
          insertOrderItems oid rest
            { db with
                orderItems := db.orderItems ++
                  [{ order_id := oid, product_id := i.productId,
                     quantity := i.quantity, price_at_purchase := i.price }],
                products := db.products.map (fun p =>
                  if p.id == i.productId then { p with stock := p.stock - i.quantity } else p) } := by
        simp only [insertOrderItems, hi, if_true]
      obtain ⟨j, hj, hjmiss⟩ := hmiss
      rcases List.mem_cons.mp hj with rfl | hj2
      · rw [hi] at hjmiss
        exact absurd hjmiss (by simp)
      · rw [hstep]
        apply ih
        refine ⟨j, hj2, ?_⟩
        rw [any_id_map _ _ ?_ j.productId]
        · exact hjmiss
        · intro p
          by_cases hp : p.id == i.productId
          · simp [hp]
          · simp [hp]
    · have hi' : db.products.any (fun p => p.id == i.productId) = false := by
        simpa using hi
      refine ⟨.serverError, ?_⟩
      simp only [insertOrderItems, hi', if_false]
      simp

/-- Full behavioral characterization of the POST /api/orders handler:
validation failures and rolled-back transactions leave the store untouched,
and a successful run persists the order, its item rows, and the stock
decrements in one step. -/
theorem createOrderApi_spec (db : Db) (userId : ℕ) (items : List NewItem)
    (addr : Option String) :
    (items = [] → createOrderApi db userId items addr = (db, .error .emptyItems)) ∧
    (items ≠ [] → jsFalsyStr addr = true →
        createOrderApi db userId items addr = (db, .error .missingAddress)) ∧
    (items ≠ [] → jsFalsyStr addr = false →
      (db.users.any (fun u => u.id == userId) = false →
        createOrderApi db userId items addr = (db, .error .serverError)) ∧
      (db.users.any (fun u => u.id == userId) = true →
        (∀ i ∈ items, db.products.any (fun p => p.id == i.productId) = true) →
        ∃ db' ord, createOrderApi db userId items addr = (db', .ok ord) ∧
          ord.id = db.nextOrderId ∧ ord.user_id = userId ∧ ord.status = "pending" ∧
          ord.total = orderItemsTotal items ∧
          ord.shipping_address = addr.getD "" ∧
          db'.users = db.users ∧
          db'.orders = db.orders ++ [ord] ∧
          db'.nextOrderId = db.nextOrderId + 1 ∧
          db'.orderItems = db.orderItems ++ items.map (fun i =>
            { order_id := db.nextOrderId, product_id := i.productId,
              quantity := i.quantity, price_at_purchase := i.price }) ∧
          db'.products = db.products.map (fun p =>
            { p with stock := p.stock - orderedQty p.id items })) ∧
      ((∃ i ∈ items, db.products.any (fun p => p.id == i.productId) = false) →
        createOrderApi db userId items addr = (db, .error .serverError))) := by
  refine ⟨?_, ?_, ?_⟩
  · intro h
    subst h
    rfl
  · intro hne hfalsy
    have hnem : items.isEmpty = false := by
      cases items with
      | nil => exact absurd rfl hne
      | cons x xs => rfl
    simp only [createOrderApi, hnem, hfalsy, if_false, if_true, Bool.false_eq_true]
  · intro hne hfalsy
    have hnem : items.isEmpty = false := by
      cases items with
      | nil => exact absurd rfl hne
      | cons x xs => rfl
    refine ⟨?_, ?_, ?_⟩
    · intro huser
      have hins : insertOrder userId (orderItemsTotal items) (addr.getD "") db =
          .error .serverError := by
        simp only [insertOrder, huser]
        rfl
      simp only [createOrderApi, hnem, hfalsy, if_false, Bool.false_eq_true]
      rw [hins]
    · intro huser hpres
      set order : OrderRow :=
        { id := db.nextOrderId, user_id := userId, status := "pending",
          total := orderItemsTotal items, shipping_address := addr.getD "" } with horder
      set db1 : Db :=
        { db with
            orders := db.orders ++ [order],
            nextOrderId := db.nextOrderId + 1 } with hdb1
      have hins : insertOrder userId (orderItemsTotal items) (addr.getD "") db =
          .ok (db1, order) := by
        simp only [insertOrder, huser]
        rfl
      have hpres1 : ∀ i ∈ items, db1.products.any (fun p => p.id == i.productId) = true := hpres
      obtain ⟨db2, hrun, husers, ho, hn, hitems, hprod⟩ :=
        insertOrderItems_ok db.nextOrderId items db1 hpres1
      refine ⟨db2, order, ?_, rfl, rfl, rfl, rfl, rfl, ?_, ?_, ?_, ?_, ?_⟩
      · simp only [createOrderApi, hnem, hfalsy, if_false, Bool.false_eq_true]
        rw [hins]
        show (match insertOrderItems order.id items db1 with
          | .ok db2 => (db2, Except.ok order)
          | .error _ => (db, Except.error ApiErr.serverError)) = (db2, Except.ok order)
        rw [hrun]
      · exact husers
      · rw [ho]
      · rw [hn]
      · rw [hitems]
      · rw [hprod]
    · intro hmiss
      by_cases huser : db.users.any (fun u => u.id == userId)
      · set order : OrderRow :=
          { id := db.nextOrderId, user_id := userId, status := "pending",
            total := orderItemsTotal items, shipping_address := addr.getD "" } with horder
        set db1 : Db :=
          { db with
              orders := db.orders ++ [order],
              nextOrderId := db.nextOrderId + 1 } with hdb1
        have hins : insertOrder userId (orderItemsTotal items) (addr.getD "") db =
            .ok (db1, order) := by
          simp only [insertOrder, huser]
          rfl
        have hmiss1 : ∃ i ∈ items, db1.products.any (fun p => p.id == i.productId) = false := hmiss
        obtain ⟨e, hrun⟩ := insertOrderItems_fails db.nextOrderId items db1 hmiss1
        simp only [createOrderApi, hnem, hfalsy, if_false, Bool.false_eq_true]
        rw [hins]
        show (match insertOrderItems order.id items db1 with
          | .ok db2 => (db2, Except.ok order)
          | .error _ => (db, Except.error ApiErr.serverError)) = (db, Except.error ApiErr.serverError)
        rw [hrun]
      · have huser' : db.users.any (fun u => u.id == userId) = false := by simpa using huser
        have hins : insertOrder userId (orderItemsTotal items) (addr.getD "") db =
            .error .serverError := by
          simp only [insertOrder, huser']
          rfl
        simp only [createOrderApi, hnem, hfalsy, if_false, Bool.false_eq_true]
        rw [hins]

/-! ## Concrete data used by witnesses and counterexamples -/

/-- The items of the specification's order scenario: price 79.99 at quantity
1 and price 29.99 at quantity 2. -/
def scenarioItems : List OrderItemT :=
  [ { id := 1, order_id := 1, product_id := 1, quantity := 1, price_at_purchase := 79.99 },
    { id := 2, order_id := 1, product_id := 10, quantity := 2, price_at_purchase := 29.99 } ]

/-- The same scenario as a POST /api/orders request body. -/
def scenarioNewItems : List NewItem :=
  [ { productId := 1, quantity := 1, price := 79.99 },
    { productId := 10, quantity := 2, price := 29.99 } ]

/-- A store holding the two catalog products the scenario order references. -/
def dbScenario : Db :=
  { users := [ { id := 998 } ],
    products := [ { id := 1, price := 79.99, stock := 10 },
                  { id := 10, price := 29.99, stock := 5 } ],
    orders := [], orderItems := [], nextOrderId := 1 }

/-- A store with one pending order, for the status-update scenarios. -/
def dbOneOrder : Db :=
  { users := [ { id := 998 } ],
    products := [],
    orders := [ { id := 1, user_id := 998, status := "pending", total := 10,
                  shipping_address := "742 Evergreen Terrace" } ],
    orderItems := [], nextOrderId := 2 }

/-- A store missing product 10, so the scenario order hits the unknown
product failure inside the transaction. -/
def dbMissingProduct : Db :=
  { users := [ { id := 998 } ],
    products := [ { id := 1, price := 79.99, stock := 10 } ],
    orders := [], orderItems := [], nextOrderId := 1 }

/-! ## Claim theorems -/

/-- C9 (amended): getRevenue aggregates the rounded sum of total over the
non-cancelled orders, but getOrderCount counts every order, cancelled ones
included. -/
theorem C9_aggregations (orders : List StoreOrder) :
    getTotalRevenue orders =
      round2 (((orders.filter (fun o => o.status ≠ .cancelled)).map StoreOrder.total).sum) ∧
    getOrderCount orders = orders.length := by
  constructor
  · unfold getTotalRevenue
    rw [foldl_add_map StoreOrder.total]
    rw [zero_add]
  · rfl

/-- C9 counterexample: on the seeded order store, which holds five orders of
which one is cancelled, getOrderCount returns 5, not the count 4 of
non-cancelled orders that the claim asserts. -/
theorem C9_counterexample :
    getOrderCount seedOrders = 5 ∧
    (seedOrders.filter (fun o => o.status ≠ .cancelled)).length = 4 ∧
    getOrderCount seedOrders ≠ (seedOrders.filter (fun o => o.status ≠ .cancelled)).length := by
  refine ⟨rfl, by decide, by decide⟩

/-- C2 (amended): every order built by buildOrder (in particular every seed
order) satisfies subtotal = round2 of the item sum, tax = round2 of subtotal
times the 8.25 percent rate, fees = 4.99 and total = round2 of their sum,
and the scenario items yield 139.97 / 11.55 / 4.99 / 156.51; an order
created through the backend POST handler instead stores
total = the plain sum of price times quantity, with no tax and no fee. -/
theorem C2_orderTotals :
    (∀ (id : ℕ) (orderNumber : String) (userId : ℕ) (status : OrderStatus)
        (address : String) (items : List OrderItemT),
      (buildOrder id orderNumber userId status address items).subtotal =
        round2 ((items.map (fun i => i.price_at_purchase * (i.quantity : ℚ))).sum) ∧
      (buildOrder id orderNumber userId status address items).tax =
        round2 ((buildOrder id orderNumber userId status address items).subtotal * TAX_RATE) ∧
      (buildOrder id orderNumber userId status address items).fees = FLAT_FEE ∧
      (buildOrder id orderNumber userId status address items).total =
        round2 ((buildOrder id orderNumber userId status address items).subtotal +
          (buildOrder id orderNumber userId status address items).tax +
          (buildOrder id orderNumber userId status address items).fees)) ∧
    ((buildOrder 1 "ORD-10001" 998 .pending "742 Evergreen Terrace" scenarioItems).subtotal =
        139.97 ∧
      (buildOrder 1 "ORD-10001" 998 .pending "742 Evergreen Terrace" scenarioItems).tax =
        11.55 ∧
      (buildOrder 1 "ORD-10001" 998 .pending "742 Evergreen Terrace" scenarioItems).fees =
        4.99 ∧
      (buildOrder 1 "ORD-10001" 998 .pending "742 Evergreen Terrace" scenarioItems).total =
        156.51) ∧
    (∀ (db : Db) (userId : ℕ) (items : List NewItem) (addr : Option String)
        (db' : Db) (ord : OrderRow),
      createOrderApi db userId items addr = (db', .ok ord) →
      ord.total = ((items.map (fun i => i.price * (i.quantity : ℚ))).sum)) := by
  refine ⟨?_, ?_, ?_⟩
  · intro id orderNumber userId status address items
    refine ⟨?_, rfl, rfl, rfl⟩
    show round2 (items.foldl (fun s i => s + i.price_at_purchase * (i.quantity : ℚ)) 0) = _
    rw [foldl_add_map (fun i : OrderItemT => i.price_at_purchase * (i.quantity : ℚ)), zero_add]
  · have hsub : (buildOrder 1 "ORD-10001" 998 .pending "742 Evergreen Terrace"
        scenarioItems).subtotal = 139.97 := by
      show round2 (scenarioItems.foldl (fun s i => s + i.price_at_purchase * (i.quantity : ℚ)) 0) =
        139.97
      norm_num [scenarioItems, round2, jsRound]
    have htax : (buildOrder 1 "ORD-10001" 998 .pending "742 Evergreen Terrace"
        scenarioItems).tax = 11.55 := by
      show round2 ((buildOrder 1 "ORD-10001" 998 .pending "742 Evergreen Terrace"
        scenarioItems).subtotal * TAX_RATE) = 11.55
      rw [hsub]
      norm_num [TAX_RATE, round2, jsRound]
    have hfees : (buildOrder 1 "ORD-10001" 998 .pending "742 Evergreen Terrace"
        scenarioItems).fees = 4.99 := by
      show FLAT_FEE = (4.99 : ℚ)
      norm_num [FLAT_FEE]
    refine ⟨hsub, htax, hfees, ?_⟩
    show round2 ((buildOrder 1 "ORD-10001" 998 .pending "742 Evergreen Terrace"
      scenarioItems).subtotal + (buildOrder 1 "ORD-10001" 998 .pending "742 Evergreen Terrace"
      scenarioItems).tax + (buildOrder 1 "ORD-10001" 998 .pending "742 Evergreen Terrace"
      scenarioItems).fees) = 156.51
    rw [hsub, htax, hfees]
    norm_num [round2, jsRound]
  · intro db userId items addr db' ord h
    simp only [createOrderApi] at h
    by_cases h1 : items.isEmpty
    · rw [if_pos h1] at h
      simp at h
    rw [if_neg h1] at h
    by_cases h2 : jsFalsyStr addr
    · rw [if_pos h2] at h
      simp at h
    rw [if_neg h2] at h
    cases hins : insertOrder userId (orderItemsTotal items) (addr.getD "") db with
    | error e =>
      simp only [hins] at h
      exact absurd h (by simp)
    | ok p =>
      obtain ⟨db1, order⟩ := p
      simp only [hins] at h
      obtain ⟨hu, horder, hdb1⟩ := insertOrder_ok_elim hins
      cases hrun : insertOrderItems order.id items db1 with
      | ok db2 =>
        simp only [hrun] at h
        simp only [Prod.mk.injEq, Except.ok.injEq] at h
        rw [← h.2, horder]
        show orderItemsTotal items = _
        unfold orderItemsTotal
        rw [foldl_add_map (fun i : NewItem => i.price * (i.quantity : ℚ)), zero_add]
      | error e =>
        simp only [hrun] at h
        exact absurd h (by simp)

/-- C2 counterexample: the backend handler, run on the scenario items,
persists an order whose stored total is the bare item sum 139.97, not the
156.51 that the claimed subtotal + tax + fees formula yields, so the claim
fails for orders created through createOrder. -/
theorem C2_counterexample :
    (createOrderApi dbScenario 998 scenarioNewItems
        (some "742 Evergreen Terrace")).2.map OrderRow.total = .ok (139.97 : ℚ) ∧
    round2 ((139.97 : ℚ) + round2 ((139.97 : ℚ) * TAX_RATE) + FLAT_FEE) = 156.51 ∧
    (139.97 : ℚ) ≠ 156.51 := by
  refine ⟨?_, ?_, by norm_num⟩
  · have h := (createOrderApi_spec dbScenario 998 scenarioNewItems
      (some "742 Evergreen Terrace")).2.2 (by decide) (by decide)
    obtain ⟨db', ord, hrun, hid, huser, hstatus, htotal, haddr, _⟩ :=
      h.2.1 (by decide) (by decide)
    rw [hrun]
    have ht : ord.total = (139.97 : ℚ) := by
      rw [htotal]
      norm_num [orderItemsTotal, scenarioNewItems]
    show Except.map OrderRow.total (Except.ok ord) = Except.ok (139.97 : ℚ)
    rw [Except.map, ht]
  · norm_num [round2, jsRound, TAX_RATE, FLAT_FEE]

/-- C6 (amended): createOrder rejects an empty item list or a missing
address without touching the store; when the caller's user id (taken from
the JWT, never re-checked against the users table) satisfies the
orders.user_id foreign key and every item's product exists, it computes
the stored total as the plain sum of the caller-supplied priceAtPurchase
snapshots times quantity (no catalog lookup, and no separate subtotal,
tax or fee fields), persists the order and its item rows, and decrements
each referenced product's stock by the ordered quantity; a foreign-key
failure inside the transaction (an unknown user or an unknown product)
leaves the store exactly as it was. -/
theorem C6_createOrder (db : Db) (userId : ℕ) (items : List NewItem)
    (addr : Option String) :
    (items = [] → createOrderApi db userId items addr = (db, .error .emptyItems)) ∧
    (items ≠ [] → jsFalsyStr addr = true →
        createOrderApi db userId items addr = (db, .error .missingAddress)) ∧
    (items ≠ [] → jsFalsyStr addr = false →
      (db.users.any (fun u => u.id == userId) = false →
        createOrderApi db userId items addr = (db, .error .serverError)) ∧
      (db.users.any (fun u => u.id == userId) = true →
        (∀ i ∈ items, db.products.any (fun p => p.id == i.productId) = true) →
        ∃ db' ord, createOrderApi db userId items addr = (db', .ok ord) ∧
          ord.id = db.nextOrderId ∧ ord.user_id = userId ∧ ord.status = "pending" ∧
          ord.total = orderItemsTotal items ∧
          ord.shipping_address = addr.getD "" ∧
          db'.users = db.users ∧
          db'.orders = db.orders ++ [ord] ∧
          db'.nextOrderId = db.nextOrderId + 1 ∧
          db'.orderItems = db.orderItems ++ items.map (fun i =>
            { order_id := db.nextOrderId, product_id := i.productId,
              quantity := i.quantity, price_at_purchase := i.price }) ∧
          db'.products = db.products.map (fun p =>
            { p with stock := p.stock - orderedQty p.id items })) ∧
      ((∃ i ∈ items, db.products.any (fun p => p.id == i.productId) = false) →
        createOrderApi db userId items addr = (db, .error .serverError))) :=
  createOrderApi_spec db userId items addr

/-- C6 counterexample: the handler stores no tax and no fee: on the
scenario items the committed order's total is 139.97, while the claimed
subtotal / tax / fees computation would give 156.51; and the unknown
product run rolls everything back. -/
theorem C6_counterexample :
    (createOrderApi dbScenario 998 scenarioNewItems
        (some "742 Evergreen Terrace")).2.map OrderRow.total ≠
      .ok (round2 ((139.97 : ℚ) + round2 ((139.97 : ℚ) * TAX_RATE) + FLAT_FEE)) ∧
    createOrderApi dbMissingProduct 998 scenarioNewItems (some "742 Evergreen Terrace") =
      (dbMissingProduct, .error .serverError) := by
  constructor
  · have h := (createOrderApi_spec dbScenario 998 scenarioNewItems
      (some "742 Evergreen Terrace")).2.2 (by decide) (by decide)
    obtain ⟨db', ord, hrun, hid, huser, hstatus, htotal, haddr, _⟩ :=
      h.2.1 (by decide) (by decide)
    rw [hrun]
    have ht : ord.total = (139.97 : ℚ) := by
      rw [htotal]
      norm_num [orderItemsTotal, scenarioNewItems]
    show Except.map OrderRow.total (Except.ok ord) ≠ _
    rw [Except.map, ht]
    intro hc
    simp only [Except.ok.injEq] at hc
    rw [show round2 ((139.97 : ℚ) + round2 ((139.97 : ℚ) * TAX_RATE) + FLAT_FEE) =
      (156.51 : ℚ) from by norm_num [round2, jsRound, TAX_RATE, FLAT_FEE]] at hc
    norm_num at hc
  · have h := (createOrderApi_spec dbMissingProduct 998 scenarioNewItems
      (some "742 Evergreen Terrace")).2.2 (by decide) (by decide)
    exact h.2.2 (by decide)

/-- C6 witness: the three live paths on the scenario store — empty items
rejected, a token for the deleted user 999 hitting the orders.user_id
foreign key and rolling back, and the happy path committing with the plain
item-sum total. -/
theorem C6_witness :
    createOrderApi dbScenario 998 [] (some "742 Evergreen Terrace") =
      (dbScenario, .error .emptyItems) ∧
    createOrderApi dbScenario 999 scenarioNewItems (some "742 Evergreen Terrace") =
      (dbScenario, .error .serverError) ∧
    (∃ db' ord, createOrderApi dbScenario 998 scenarioNewItems
        (some "742 Evergreen Terrace") = (db', .ok ord) ∧
      ord.total = orderItemsTotal scenarioNewItems) := by
  refine ⟨(C6_createOrder dbScenario 998 [] (some "742 Evergreen Terrace")).1 rfl, ?_, ?_⟩
  · exact ((C6_createOrder dbScenario 999 scenarioNewItems
      (some "742 Evergreen Terrace")).2.2 (by decide) (by decide)).1 (by decide)
  · obtain ⟨db', ord, hrun, _, _, _, ht, _⟩ :=
      ((C6_createOrder dbScenario 998 scenarioNewItems
        (some "742 Evergreen Terrace")).2.2 (by decide) (by decide)).2.1 (by decide) (by decide)
    exact ⟨db', ord, hrun, ht⟩

/-- C7: updateStatus rejects a status outside the allowed set leaving the
store unchanged, 404s when no order has the id, and otherwise overwrites
the status unconditionally — any prior status, any allowed new status —
changing no other field and no other row; concretely, "bogus" is rejected. -/
theorem C7_updateStatus (db : Db) (id : ℕ) (status : String) :
    (validStatuses.contains status = false →
        updateOrderStatusApi db id status = (db, .error .invalidStatus)) ∧
    (validStatuses.contains status = true →
      (db.orders.find? (fun o => o.id == id) = none →
          updateOrderStatusApi db id status = (db, .error .orderNotFound)) ∧
      (∀ o, db.orders.find? (fun o => o.id == id) = some o →
        ∃ db', updateOrderStatusApi db id status = (db', .ok { o with status := status }) ∧
          db'.products = db.products ∧ db'.orderItems = db.orderItems ∧
          db'.nextOrderId = db.nextOrderId ∧
          List.Forall₂ (fun x y => y.id = x.id ∧ y.user_id = x.user_id ∧ y.total = x.total ∧
              y.shipping_address = x.shipping_address ∧
              (y.status = x.status ∨ (x.id = id ∧ y.status = status)))
            db.orders db'.orders)) ∧
    updateOrderStatusApi dbOneOrder 1 "bogus" = (dbOneOrder, .error .invalidStatus) := by
  refine ⟨?_, ?_, ?_⟩
  · intro hval
    simp only [updateOrderStatusApi, hval]
    rfl
  · intro hval
    constructor
    · intro hfind
      simp only [updateOrderStatusApi, hval, if_true, hfind]
    · intro o hfind
      refine ⟨{ db with
          orders := updateFirst (fun o => o.id == id)
            (fun o => { o with status := status }) db.orders }, ?_, rfl, rfl, rfl, ?_⟩
      · simp only [updateOrderStatusApi, hval, if_true, hfind]
      · show List.Forall₂ _ db.orders (updateFirst (fun o => o.id == id)
          (fun o => { o with status := status }) db.orders)
        apply forall₂_updateFirst _ _ _ (fun x => ⟨rfl, rfl, rfl, rfl, Or.inl rfl⟩) db.orders
        intro x _ hpx
        exact ⟨rfl, rfl, rfl, rfl, Or.inr ⟨by simpa using hpx, rfl⟩⟩
  · rfl

/-- C8: averageRating is the mean rating over the product's approved
reviews rounded to one decimal, exactly 0 when there is no approved review,
and 5 for a single approved review of rating 5. -/
theorem C8_averageRating (reviews : List Review) (productId : ℕ) :
    (approvedReviews reviews productId = [] → getAverageRating reviews productId = 0) ∧
    (approvedReviews reviews productId ≠ [] →
      getAverageRating reviews productId =
        (jsRound ((((approvedReviews reviews productId).map (fun r => (r.rating : ℚ))).sum /
          (approvedReviews reviews productId).length) * 10) : ℚ) / 10) ∧
    (∀ r : Review, r.productId = productId → r.status = .approved → r.rating = 5 →
      getAverageRating [r] productId = 5) := by
  refine ⟨?_, ?_, ?_⟩
  · intro h
    unfold getAverageRating
    rw [h]
    rfl
  · intro h
    unfold getAverageRating
    rw [if_neg (by simpa [List.length_eq_zero] using h)]
    rw [foldl_add_map (fun r : Review => (r.rating : ℚ)), zero_add]
  · intro r hp hs hr
    have happ : approvedReviews [r] productId = [r] := by
      unfold approvedReviews
      rw [List.filter_cons]
      rw [if_pos (by simp [hp, hs])]
      rfl
    unfold getAverageRating
    rw [happ]
    rw [if_neg (by simp)]
    rw [show ([r].foldl (fun s x => s + (x.rating : ℚ)) 0) = (5 : ℚ) by simp [hr]]
    norm_num [jsRound]

/-- C8 witness: on the seeded reviews, product 6 has no approved review and
averages 0; a single approved 5-star review averages 5. -/
theorem C8_witness :
    getAverageRating seedReviews 6 = 0 ∧
    getAverageRating
      [{ id := 13, productId := 6, userId := 1, rating := 5, helpful := 0,
         status := .approved }] 6 = 5 :=
  ⟨(C8_averageRating seedReviews 6).1 (by decide),
    (C8_averageRating
      [{ id := 13, productId := 6, userId := 1, rating := 5, helpful := 0,
         status := .approved }] 6).2.2 _ rfl rfl rfl⟩

/-- C1: placeBid, after the expiry sweep, fails in order with not-found
(absent auction), a conflict (inactive or past-deadline auction), forbidden
(seller bidding on their own auction), and validation (amount below
currentPrice + 1, the minimum increment); an amount of at least
currentPrice + 1 on an active, non-expired auction is accepted, appending
the bid, setting currentPrice to the amount and incrementing bidCount; a
seller can never place a successful bid on their own auction.  Currency
hypotheses (round2-fixed values) reflect that all stored prices are exact
cents, which holds in every reachable state. -/
theorem C1_placeBid (now : ℚ) (s : AuctionState) (auctionId bidderId : ℕ) (amount : ℚ) :
    ((checkAndEndAuctions now s).auctions.find? (fun a => a.id == auctionId) = none →
        placeBid now s auctionId bidderId amount = .error .auctionNotFound) ∧
    (∀ a, (checkAndEndAuctions now s).auctions.find? (fun a => a.id == auctionId) = some a →
      ((a.status ≠ .active ∨ a.endsAt ≤ now) →
          ∃ e, placeBid now s auctionId bidderId amount = .error e ∧
            (e = .noLongerActive ∨ e = .auctionEnded)) ∧
      (a.status = .active → ¬ a.endsAt ≤ now → bidderId = a.sellerId →
          placeBid now s auctionId bidderId amount = .error .ownAuction) ∧
      (a.status = .active → ¬ a.endsAt ≤ now → bidderId ≠ a.sellerId →
        round2 a.currentPrice = a.currentPrice →
          ((amount < a.currentPrice + 1 →
              placeBid now s auctionId bidderId amount = .error .bidTooLow) ∧
           (a.currentPrice + 1 ≤ amount → round2 amount = amount →
              ∃ s' b, placeBid now s auctionId bidderId amount = .ok (s', b) ∧
                b.amount = amount ∧ b.auctionId = auctionId ∧ b.bidderId = bidderId ∧
                s'.bids = (checkAndEndAuctions now s).bids ++ [b] ∧
                s'.auctions = updateFirst (fun x => x.id == auctionId)
                  (fun x => { x with currentPrice := amount, bidCount := x.bidCount + 1 })
                  (checkAndEndAuctions now s).auctions)))) ∧
    (∀ s' b, placeBid now s auctionId bidderId amount = .ok (s', b) →
      ∀ a, (checkAndEndAuctions now s).auctions.find? (fun a => a.id == auctionId) = some a →
        bidderId ≠ a.sellerId) := by
  refine ⟨?_, ?_, ?_⟩
  · intro hfind
    simp only [placeBid, hfind]
  · intro a hfind
    refine ⟨?_, ?_, ?_⟩
    · intro hconf
      by_cases hst : a.status = .active
      · have hend : a.endsAt ≤ now := by
          rcases hconf with hc | hc
          · exact absurd hst hc
          · exact hc
        refine ⟨.auctionEnded, ?_, Or.inr rfl⟩
        simp only [placeBid, hfind]
        rw [if_neg (by simp [hst]), if_pos hend]
      · refine ⟨.noLongerActive, ?_, Or.inl rfl⟩
        simp only [placeBid, hfind]
        rw [if_pos hst]
    · intro hst hend hself
      simp only [placeBid, hfind]
      rw [if_neg (by simp [hst]), if_neg hend, if_pos (by simp [hself.symm])]
    · intro hst hend hself hcents
      have hmin : round2 (a.currentPrice + 1) = a.currentPrice + 1 :=
        round2_fixed_add_one hcents
      constructor
      · intro hlow
        simp only [placeBid, hfind]
        rw [if_neg (by simp [hst]), if_neg hend,
          if_neg (by simp; exact fun hc => hself hc.symm), hmin, if_pos hlow]
      · intro hge hamt
        have hrun : placeBid now s auctionId bidderId amount = .ok
            ({ checkAndEndAuctions now s with
                bids := (checkAndEndAuctions now s).bids ++
                  [{ id := (checkAndEndAuctions now s).nextBidId, auctionId := auctionId,
                     bidderId := bidderId, amount := round2 amount, createdAt := now }],
                nextBidId := (checkAndEndAuctions now s).nextBidId + 1,
                auctions := updateFirst (fun x => x.id == auctionId)
                  (fun x => { x with currentPrice := round2 amount, bidCount := x.bidCount + 1 })
                  (checkAndEndAuctions now s).auctions },
              { id := (checkAndEndAuctions now s).nextBidId, auctionId := auctionId,
                bidderId := bidderId, amount := round2 amount, createdAt := now }) := by
          simp only [placeBid, hfind]
          rw [if_neg (by simp [hst]), if_neg hend,
            if_neg (by simp; exact fun hc => hself hc.symm), hmin,
            if_neg (not_lt.mpr hge)]
        rw [hamt] at hrun
        exact ⟨_, _, hrun, rfl, rfl, rfl, rfl, rfl⟩
  · intro s' b hok a hfind
    obtain ⟨a0, hfind0, _, _, hsell0, _, _, _⟩ := placeBid_ok_elim hok
    rw [hfind0] at hfind
    have ha : a0 = a := by
      simpa using hfind
    rw [← ha]
    exact fun hc => hsell0 hc.symm

/-- C1 witness: on the freshly seeded store a bid of 79 (one unit above the
current price 78) on auction 1 by user 998 is accepted. -/
theorem C1_witness :
    ∃ s' b, placeBid 0 initAuctionState 1 998 79 = .ok (s', b) ∧
      b.amount = 79 ∧ b.bidderId = 998 := by
  have hfind : (checkAndEndAuctions 0 initAuctionState).auctions.find? (fun a => a.id == 1) =
      some { id := 1, sellerId := 100, startingPrice := 45, currentPrice := 78, bidCount := 4,
             status := .active, createdAt := -72, endsAt := 48, winnerId := none } := by
    decide
  have h := ((C1_placeBid 0 initAuctionState 1 998 79).2.1 _ hfind).2.2
    (by decide) (by decide) (by decide) (by norm_num [round2, jsRound])
  obtain ⟨s', b, hok, hamt, _, hbid, _⟩ := h.2 (by norm_num) (by norm_num [round2, jsRound])
  exact ⟨s', b, hok, hamt, hbid⟩

/-- C4: in every reachable auction-engine state, each auction's currentPrice
is the maximum of its startingPrice and its ledger's bid amounts (so it
dominates both), and bidCount counts its bids; and every single step of the
engine keeps each existing auction's id and never lowers its currentPrice. -/
theorem C4_ledgerInvariant :
    (∀ s, AReachable s → ∀ a ∈ s.auctions,
      a.currentPrice = ledgerMax a.startingPrice ((auctionBids s.bids a.id).map Bid.amount) ∧
      a.bidCount = (auctionBids s.bids a.id).length ∧
      a.startingPrice ≤ a.currentPrice ∧
      ∀ b ∈ auctionBids s.bids a.id, b.amount ≤ a.currentPrice) ∧
    (∀ s s', AReachable s → AStep s s' → priceMono s s') := by
  constructor
  · intro s hr a ha
    have hinv := (auctionInvFull_reachable hr).1
    have h1 := hinv a ha
    refine ⟨h1.1, h1.2, ?_, ?_⟩
    · rw [h1.1]
      exact le_ledgerMax _ _
    · intro b hb
      rw [h1.1]
      exact mem_le_ledgerMax _ _ (List.mem_map_of_mem Bid.amount hb)
  · intro s s' hr hstep
    exact priceMono_step (auctionInvFull_reachable hr) hstep

/-- C4 witness: the invariant machinery is live on the seeded initial
state, here across one expiry sweep. -/
theorem C4_witness : priceMono initAuctionState (checkAndEndAuctions 5 initAuctionState) :=
  C4_ledgerInvariant.2 initAuctionState (checkAndEndAuctions 5 initAuctionState)
    Relation.ReflTransGen.refl (AStep.sweep 5 initAuctionState)

/-- C3 (amended): the lazy expiry sweep transitions each active auction past
its deadline to sold — with the winner the top (highest-amount) bidder —
when it has bids, and to ended with its winner unset otherwise, leaving all
other auctions untouched; the sweep runs at the top of the sweeping reads
(getAuctionById, getActiveAuctionCount, and the other auction list reads of
the service), but getBidsByAuction performs no sweep at all and returns the
state unchanged. -/
theorem C3_lazyExpiry (now : ℚ) (s : AuctionState) (auctionId : ℕ) :
    List.Forall₂ (fun a a' =>
      (a.status = .active → a.endsAt ≤ now → 0 < a.bidCount →
        ∀ t, topBid s.bids a.id = some t →
          a'.status = .sold ∧ a'.winnerId = some t.bidderId ∧
          t ∈ auctionBids s.bids a.id ∧
          ∀ b ∈ auctionBids s.bids a.id, b.amount ≤ t.amount) ∧
      (a.status = .active → a.endsAt ≤ now → a.bidCount = 0 →
        a'.status = .ended ∧ a'.winnerId = a.winnerId) ∧
      (¬ (a.status = .active ∧ a.endsAt ≤ now) → a' = a))
      s.auctions (checkAndEndAuctions now s).auctions ∧
    (getAuctionById now s auctionId).1 = checkAndEndAuctions now s ∧
    (getActiveAuctionCount now s).1 = checkAndEndAuctions now s ∧
    (getBidsByAuction s auctionId).1 = s := by
  refine ⟨?_, ?_, rfl, rfl⟩
  · show List.Forall₂ _ s.auctions (s.auctions.map (expireAuction now s.bids))
    apply forall₂_map_self
    intro a
    refine ⟨?_, ?_, ?_⟩
    · intro hst hend hcnt t htop
      rw [expireAuction_sold hst hend hcnt htop]
      obtain ⟨hmem, hmax⟩ := topBid_spec htop
      exact ⟨rfl, rfl, hmem, hmax⟩
    · intro hst hend hcnt
      rw [expireAuction_ended hst hend hcnt]
      exact ⟨rfl, rfl⟩
    · intro h
      exact expireAuction_skip h
  · simp only [getAuctionById]
    cases hfind : (checkAndEndAuctions now s).auctions.find? (fun a => a.id == auctionId) <;>
      simp [hfind]

/-- An auction whose deadline has passed while its status is still active. -/
def auctionExpired : Auction :=
  { id := 7, sellerId := 1, startingPrice := 10, currentPrice := 20, bidCount := 1,
    status := .active, createdAt := 0, endsAt := 1, winnerId := none }

/-- A state holding only that overdue active auction and its single bid. -/
def sExpired : AuctionState :=
  { auctions := [auctionExpired],
    bids := [{ id := 1, auctionId := 7, bidderId := 42, amount := 20, createdAt := 0 }],
    nextAuctionId := 8, nextBidId := 2 }

/-- C3 counterexample: getBidsByAuction is a read operation, yet it runs no
expiry sweep: on a store whose only auction is active and past its deadline
the read leaves it active, while the sweep any other read would run marks it
sold — so the claim that the check runs at the top of every read operation
is false. -/
theorem C3_counterexample :
    (getBidsByAuction sExpired 7).1 = sExpired ∧
    (getBidsByAuction sExpired 7).1.auctions.map Auction.status = [.active] ∧
    (checkAndEndAuctions 2 sExpired).auctions.map Auction.status = [.sold] :=
  ⟨rfl, by decide, by decide⟩

/-- C5 (amended): sold, ended and cancelled are terminal with respect to the
expiry sweep, placeBid and cancelAuction — none of these ever changes the
status of an auction that is not active — but the admin updateAuctionStatus
overwrites the status unconditionally, so it can move an auction out of a
terminal status (even back to active). -/
theorem C5_terminalStatuses :
    (∀ (now : ℚ) (s : AuctionState),
      List.Forall₂ (fun a a' => a.status ≠ .active → a'.status = a.status)
        s.auctions (checkAndEndAuctions now s).auctions) ∧
    (∀ (now : ℚ) (s s' : AuctionState) (auctionId bidderId : ℕ) (amount : ℚ) (b : Bid),
      placeBid now s auctionId bidderId amount = .ok (s', b) →
      List.Forall₂ (fun a a' => a.status ≠ .active → a'.status = a.status)
        s.auctions s'.auctions) ∧
    (∀ (s s' : AuctionState) (auctionId sellerId : ℕ) (a' : Auction),
      cancelAuction s auctionId sellerId = .ok (s', a') →
      List.Forall₂ (fun a a2 => a.status ≠ .active → a2.status = a.status)
        s.auctions s'.auctions) ∧
    (∀ (s : AuctionState) (id : ℕ) (status : AuctionStatus) (s' : AuctionState) (a' : Auction),
      updateAuctionStatus s id status = .ok (s', a') → a'.status = status) := by
  have hsweep : ∀ (now : ℚ) (s : AuctionState),
      List.Forall₂ (fun a a' => a.status ≠ .active → a'.status = a.status)
        s.auctions (checkAndEndAuctions now s).auctions := by
    intro now s
    show List.Forall₂ _ s.auctions (s.auctions.map (expireAuction now s.bids))
    apply forall₂_map_self
    intro a hne
    rw [expireAuction_skip (fun hc => hne hc.1)]
  refine ⟨hsweep, ?_, ?_, ?_⟩
  · intro now s s' auctionId bidderId amount b hok
    obtain ⟨a, hfind, _, _, _, _, hb, hs'⟩ := placeBid_ok_elim hok
    have htrans : ∀ x y z : Auction,
        (x.status ≠ .active → y.status = x.status) →
        (y.status ≠ .active → z.status = y.status) →
        (x.status ≠ .active → z.status = x.status) := by
      intro x y z h1 h2 hne
      have hy := h1 hne
      rw [h2 (by rw [hy]; exact hne), hy]
    apply forall₂_trans_of htrans (hsweep now s)
    rw [hs']
    show List.Forall₂ _ (checkAndEndAuctions now s).auctions (updateFirst _ _ _)
    apply forall₂_updateFirst _ _ _ (fun x _ => rfl) (checkAndEndAuctions now s).auctions
    intro x _ _ _
    rfl
  · intro s s' auctionId sellerId a' hok
    obtain ⟨a, hfind, hsell, hst, ha', hs'⟩ := cancelAuction_ok_elim hok
    obtain ⟨l1, l2, hdec, hl1, hupd⟩ := updateFirst_decomp (fun x => x.id == auctionId)
      (fun x => { x with status := .cancelled }) s.auctions a hfind
    rw [hs']
    show List.Forall₂ _ s.auctions (updateFirst _ _ s.auctions)
    rw [hupd, hdec]
    exact List.rel_append (List.forall₂_same.mpr (fun y _ _ => rfl))
      (List.Forall₂.cons (fun hne => absurd hst hne)
        (List.forall₂_same.mpr (fun y _ _ => rfl)))
  · intro s id status s' a' hok
    obtain ⟨a, hfind, ha', hs'⟩ := updateAuctionStatus_ok_elim hok
    rw [ha']

/-- C5 counterexample: seed auction 5 is sold, a terminal status, yet the
admin updateAuctionStatus resets it to active. -/
theorem C5_counterexample :
    (initAuctionState.auctions.find? (fun a => a.id == 5)).map Auction.status =
      some .sold ∧
    (updateAuctionStatus initAuctionState 5 .active).map (fun p => p.2.status) =
      .ok .active ∧
    (updateAuctionStatus initAuctionState 5 .active).map
        (fun p => p.1.auctions.map Auction.status) =
      .ok [.active, .active, .active, .active, .active, .cancelled] := by
  refine ⟨by decide, rfl, rfl⟩

/-- C10: cancelAuction runs no expiry check: for an auction still marked
active whose deadline has already passed, the seller's cancel succeeds and
sets the status to cancelled, leaving the winner field as it was — even
though placeBid at the same moment would fail, and the sweep any read runs
would instead mark the auction sold (top bidder wins) or ended. -/
theorem C10_cancelNoExpiryCheck (now : ℚ) (s : AuctionState) (auctionId : ℕ) (a : Auction)
    (hfind : s.auctions.find? (fun x => x.id == auctionId) = some a)
    (hst : a.status = .active) (hend : a.endsAt ≤ now) :
    (∃ s' a', cancelAuction s auctionId a.sellerId = .ok (s', a') ∧
      a'.status = .cancelled ∧ a'.winnerId = a.winnerId) ∧
    (∀ bidderId amount, ∃ e, placeBid now s auctionId bidderId amount = .error e) ∧
    (∃ a2, (checkAndEndAuctions now s).auctions.find? (fun x => x.id == auctionId) =
        some a2 ∧
      (0 < a.bidCount → ∀ t, topBid s.bids a.id = some t → a2.status = .sold) ∧
      (a.bidCount = 0 → a2.status = .ended)) := by
  refine ⟨?_, ?_, ?_⟩
  · simp only [cancelAuction, hfind]
    rw [if_neg (by simp), if_neg (by simp [hst])]
    exact ⟨_, _, rfl, rfl, rfl⟩
  · intro bidderId amount
    simp only [placeBid, find?_checkAndEndAuctions, hfind, Option.map_some']
    by_cases hs2 : (expireAuction now s.bids a).status = .active
    · refine ⟨.auctionEnded, ?_⟩
      rw [if_neg (by simp [hs2])]
      rw [if_pos (by rw [(expireAuction_fields now s.bids a).2.2.2.2.2.2]; exact hend)]
    · refine ⟨.noLongerActive, ?_⟩
      rw [if_pos hs2]
  · refine ⟨expireAuction now s.bids a, ?_, ?_, ?_⟩
    · rw [find?_checkAndEndAuctions, hfind, Option.map_some']
    · intro hcnt t htop
      rw [expireAuction_sold hst hend hcnt htop]
    · intro hcnt
      rw [expireAuction_ended hst hend hcnt]

/-- C10 witness: on the seeded store at hour 100, auction 2 (deadline hour
5, still marked active) is cancellable by its seller 998 while any bid on
it fails. -/
theorem C10_witness :
    (∃ s' a', cancelAuction initAuctionState 2 998 = .ok (s', a') ∧
      a'.status = .cancelled) ∧
    (∃ e, placeBid 100 initAuctionState 2 101 500 = .error e) := by
  have h := C10_cancelNoExpiryCheck 100 initAuctionState 2
    { id := 2, sellerId := 998, startingPrice := 120, currentPrice := 185, bidCount := 3,
      status := .active, createdAt := -48, endsAt := 5, winnerId := none }
    (by decide) (by decide) (by decide)
  obtain ⟨⟨s', a', hc, hcs, _⟩, hbid, _⟩ := h
  exact ⟨⟨s', a', hc, hcs⟩, hbid 101 500⟩
